import Mathlib

/-!
DNS responder of `components/esp32-dns-server/dns_server.c`.

A shallow embedding of one pass of the `while (1)` loop of `receive_thread`
(lines 103-227): a datagram is received into `data[80]`, the response is
built in `response[100]`, the question name is decoded into `label_buf[128]`
and one datagram is sent back.

Conventions of the embedding.

* A byte is a natural number. The target of the component is the ESP32, whose
  ABI makes plain `char` unsigned, so a `char` cell read as an integer is a
  value in `0 .. 255`. The `int` and `size_t` sums of the name walk then stay
  below `2 ^ 9` and are not reduced; the one conversion that can wrap, the
  count `length - 12` given to `memcpy`, goes through `size_t`.
* A C array is a `Buf`: its declared capacity and its cells. Every indexed
  access is checked against the capacity; an access outside it ends the pass
  with `Fault.out_of_bounds`.
* The three arrays keep whatever they held before the pass (`data` and
  `response` are declared outside the loop, `label_buf` is an uninitialised
  local), so a pass starts from an arbitrary `Frame`.
* Logging, `inet_ntop` and the return value of `sendto` do not influence the
  bytes sent and are left out.
-/

namespace DnsServer

/-- Ways in which a pass can fail to complete. -/
inductive Fault where
  /-- An array was indexed outside its declared capacity. -/
  | out_of_bounds
  /-- The loop model was given too little fuel. -/
  | out_of_fuel
deriving DecidableEq, Repr

/-- A `char` array: declared capacity and current cells. -/
structure Buf where
  cap : Nat
  cell : Nat → Nat

/-- The assignment `b[i] = v`. -/
def store (b : Buf) (i v : Nat) : Except Fault Buf :=
  if i < b.cap then
    .ok { b with cell := fun j => if j = i then v else b.cell j }
  else .error .out_of_bounds

/-- The read `b[i]`. -/
def load (b : Buf) (i : Nat) : Except Fault Nat :=
  if i < b.cap then .ok (b.cell i) else .error .out_of_bounds

/-- The read `b[i]` for a signed index. -/
def load_at (b : Buf) (i : Int) : Except Fault Nat :=
  if 0 ≤ i ∧ i < b.cap then .ok (b.cell i.toNat) else .error .out_of_bounds

/-- The call `memcpy(dst + d, src + s, n)` on two distinct arrays. -/
def memcpy (dst : Buf) (d : Nat) (src : Buf) (s n : Nat) : Except Fault Buf :=
  if d + n ≤ dst.cap ∧ s + n ≤ src.cap then
    .ok { dst with
          cell := fun j => if d ≤ j ∧ j < d + n then src.cell (s + (j - d)) else dst.cell j }
  else .error .out_of_bounds

/-- Conversion of an `int` to the 32-bit `size_t` of the target. -/
def size_t (v : Int) : Nat := (v % 4294967296).toNat

/-- The constant `STANDARD_QUERY` (line 45). -/
def STANDARD_QUERY : Nat := 0b00000000

/-- The function `bigEndianInt` (lines 49-54), reading `pData[0]` and `pData[1]` at
offset `p` of `b`; the result is a `uint16_t`. -/
def bigEndianInt (b : Buf) (p : Nat) : Except Fault Nat := do
  let hi ← load b p
  let val := (hi <<< 8) % 65536
  let lo ← load b (p + 1)
  pure ((val ||| lo) % 65536)

/-- The fields of `dns_server_config_t` read by `receive_thread`. The hostname is a
C string: the characters before the first NUL of the list (or the whole list). -/
structure dns_server_config_t where
  hostname : List Nat
  answer_all : Bool

/-- The four bytes of `ip.ip.addr`, in memory order. -/
structure ip4_addr_t where
  b0 : Nat
  b1 : Nat
  b2 : Nat
  b3 : Nat

/-- The address word viewed as a 4-byte array, the source of the `memcpy` of line 215. -/
def ip4_addr_t.mem (ip : ip4_addr_t) : Buf :=
  { cap := 4
    cell := fun j => if j = 0 then ip.b0 else if j = 1 then ip.b1 else if j = 2 then ip.b2 else ip.b3 }

/-- The call `strcmp(s1, s2 + k)` for a C string `s1` given as a list and a C string
stored in cells: zero exactly when the two strings are equal. -/
def strcmp : List Nat → (Nat → Nat) → Nat → Int
  | [], s2, k => 0 - (s2 k : Int)
  | c :: cs, s2, k =>
    if c = 0 then 0 - (s2 k : Int)
    else if c = s2 k then strcmp cs s2 (k + 1)
    else (c : Int) - (s2 k : Int)

/-- The three arrays of `receive_thread` with the contents they hold when a pass
starts: `data` (line 96), `response` (line 97) and `label_buf` (line 147). -/
structure Frame where
  data : Buf
  response : Buf
  label_buf : Buf

/-- The frame with the capacities declared in the source, `char data[80]`,
`char response[100]` and `char label_buf[128]`, holding the given prior contents. -/
def frame (d r l : Nat → Nat) : Frame :=
  { data := ⟨80, d⟩, response := ⟨100, r⟩, label_buf := ⟨128, l⟩ }

/-- The call `recvfrom(socket_fd, data, sizeof(data), ...)` of line 105 for an incoming
datagram: at most `sizeof(data)` bytes are stored from index 0 on, and their number
is returned. -/
def recvfrom (data : Buf) (dgram : List Nat) : Buf × Nat :=
  let length := min dgram.length data.cap
  ({ data with cell := fun j => if j < length then dgram.getD j 0 else data.cell j }, length)

/-- Lines 119-130: the twelve header bytes of the response. -/
def build_header (data response : Buf) : Except Fault Buf := do
  let response ← store response 0 (← load data 0)
  let response ← store response 1 (← load data 1)
  let response ← store response 2 (0b10000100 ||| (0b00000001 &&& (← load data 2)))
  let response ← store response 3 0b00000000
  let response ← store response 4 (← load data 4)
  let response ← store response 5 (← load data 5)
  let response ← store response 6 (← load data 4)
  let response ← store response 7 (← load data 5)
  let response ← store response 8 0x00
  let response ← store response 9 0x00
  let response ← store response 10 0x00
  store response 11 0x00

/-- The loop-carried variables of the name walk of lines 145-165. -/
structure Walk where
  i : Nat
  buf_pos : Nat
  label_count : Nat
  label_buf : Buf

/-- The `for (int i = 12; i < length;)` loop of lines 148-165. Each unit of fuel pays
for one evaluation of the loop condition. -/
def walk (data : Buf) (length : Nat) : Nat → Walk → Except Fault Walk
  | 0, _ => .error .out_of_fuel
  | fuel + 1, w =>
    if w.i < length then do
      let c ← load data w.i
      if c = 0x00 then
        pure w
      else
        let curr_label_len := c
        let label_count := w.label_count + 1
        if length < curr_label_len + w.i then
          pure { w with label_count := label_count }
        else do
          let label_buf ← memcpy w.label_buf w.buf_pos data (w.i + 1) curr_label_len
          let label_buf ← store label_buf (w.buf_pos + curr_label_len) 0x2E
          walk data length fuel
            { i := w.i + (curr_label_len + 1)
              buf_pos := w.buf_pos + curr_label_len + 1
              label_count := label_count
              label_buf := label_buf }
    else pure w

/-- Lines 145-170: the decoded question name, NUL-terminated, in `label_buf`. The loop
is given `length + 1` units of fuel. -/
def decode_name (data : Buf) (length : Nat) (label_buf : Buf) : Except Fault Buf := do
  let w ← walk data length (length + 1)
    { i := 12, buf_pos := 0, label_count := 0, label_buf := label_buf }
  let buf_pos := if w.buf_pos > 62 then 62 else w.buf_pos
  store w.label_buf buf_pos 0x00

/-- The bytes handed to `sendto(socket_fd, response, n, ...)`. -/
def sendto (response : Buf) (n : Nat) : Except Fault (List Nat) :=
  if n ≤ response.cap then .ok ((List.range n).map response.cell)
  else .error .out_of_bounds

/-- Lines 138-141 and 176-179: the error response with the given byte 3, the answer
count cleared, `length` bytes sent. -/
def send_error (response : Buf) (length code : Nat) : Except Fault (List Nat) := do
  let response ← store response 3 code
  let response ← store response 6 0x00
  let response ← store response 7 0x00
  sendto response length

/-- Lines 191-221: the address record is written at `idx` and `idx + 16` bytes are
sent. -/
def append_answer (ip : ip4_addr_t) (response : Buf) (idx : Nat) : Except Fault (List Nat) := do
  let response ← store response idx 0xC0
  let response ← store response (idx + 1) 0x0C
  let response ← store response (idx + 2) 0x00
  let response ← store response (idx + 3) 0x01
  let response ← store response (idx + 4) 0x00
  let response ← store response (idx + 5) 0x01
  let response ← store response (idx + 6) 0x00
  let response ← store response (idx + 7) 0x00
  let response ← store response (idx + 8) 0x00
  let response ← store response (idx + 9) 0x00
  let response ← store response (idx + 10) 0x00
  let response ← store response (idx + 11) 0x04
  let response ← memcpy response (idx + 12) ip.mem 0 4
  sendto response (idx + 16)

/-- Lines 183-221: the question is copied again, a trailing OPT record is pruned and the
address record is appended at `idx`. The three reads of line 188 are all performed: when
`response[idx - 11]` is inside the array so are the other two, at larger indexes below
`idx`, so the short-circuit of `&&` changes neither the value of the test nor whether the
pass faults. -/
def send_answer (ip : ip4_addr_t) (data response : Buf) (length : Nat) :
    Except Fault (List Nat) := do
  let response ← memcpy response 12 data 12 (size_t ((length : Int) - 12))
  let idx := length
  let r11 ← load_at response ((idx : Int) - 11)
  let r10 ← load_at response ((idx : Int) - 10)
  let r9 ← load_at response ((idx : Int) - 9)
  let idx := if r11 = 0x00 ∧ r10 = 0x00 ∧ r9 = 0x29 then idx - 11 else idx
  append_answer ip response idx

/-- One pass of the `while (1)` loop of `receive_thread` (lines 105-226) for one
incoming datagram: the bytes given to `sendto`, or `none` when nothing is sent
(`length > 0` fails). `cfg.answer_all` does not occur: the source reads it only to choose
the log line of lines 59-66. -/
def receive_cycle (cfg : dns_server_config_t) (ip : ip4_addr_t) (f : Frame)
    (dgram : List Nat) : Except Fault (Option (List Nat)) :=
  let (data, length) := recvfrom f.data dgram
  if length > 0 then do
    let data ← store data length 0
    let _questionCount ← bigEndianInt data 4
    let _answerCount ← bigEndianInt data 6
    let _nsCount ← bigEndianInt data 8
    let _arCount ← bigEndianInt data 10
    let response ← build_header data f.response
    let response ← memcpy response 12 data 12 (size_t ((length : Int) - 12))
    if ((← load data 1) &&& STANDARD_QUERY) > 0 then
      some <$> send_error response length 0b00000100
    else do
      let label_buf ← decode_name data length f.label_buf
      if strcmp cfg.hostname label_buf.cell 0 ≠ 0 then
        some <$> send_error response length 0b00000101
      else
        some <$> send_answer ip data response length
  else pure none

/-- Lines 105-108 and 145-170 alone: the contents of `label_buf` when the pass reaches
the `strcmp` of line 172. -/
def decoded (f : Frame) (dgram : List Nat) : Except Fault Buf :=
  let (data, length) := recvfrom f.data dgram
  do
    let data ← store data length 0
    decode_name data length f.label_buf

/-- The test of line 172 succeeds: the decoded name and `cfg->hostname` are equal as
C strings, so the pass goes on to the answer. -/
def name_matches (cfg : dns_server_config_t) (f : Frame) (dgram : List Nat) : Bool :=
  match decoded f dgram with
  | .ok label_buf => strcmp cfg.hostname label_buf.cell 0 == 0
  | .error _ => false

/-- The test of line 172 fails: the decoded name differs from `cfg->hostname`. -/
def name_differs (cfg : dns_server_config_t) (f : Frame) (dgram : List Nat) : Bool :=
  match decoded f dgram with
  | .ok label_buf => strcmp cfg.hostname label_buf.cell 0 != 0
  | .error _ => false

/-- The values of the loop variables of lines 145-165 each time the condition
`i < length` of line 148 is evaluated, in order: the loop of `walk`, recording the state at
the start of every iteration instead of returning the last one. -/
def walk_states (data : Buf) (length : Nat) : Nat → Walk → List Walk
  | 0, _ => []
  | fuel + 1, w =>
    w ::
      (if w.i < length then
        match load data w.i with
        | .error _ => []
        | .ok c =>
          if c = 0x00 then []
          else if length < c + w.i then []
          else
            match memcpy w.label_buf w.buf_pos data (w.i + 1) c with
            | .error _ => []
            | .ok label_buf =>
              match store label_buf (w.buf_pos + c) 0x2E with
              | .error _ => []
              | .ok label_buf =>
                walk_states data length fuel
                  { i := w.i + (c + 1)
                    buf_pos := w.buf_pos + c + 1
                    label_count := w.label_count + 1
                    label_buf := label_buf }
      else [])

/-! ## Closed forms used by the lemmas -/

/-- Cells of `data` once lines 105-108 have run. -/
def rcvd (d : Nat → Nat) (dgram : List Nat) : Nat → Nat :=
  fun j => if j = dgram.length then 0 else if j < dgram.length then dgram.getD j 0 else d j

/-- The first `length` bytes of `response` once lines 119-132 have run. -/
def question_echo (dgram : List Nat) : List Nat :=
  [dgram.getD 0 0, dgram.getD 1 0, 0x84 ||| (1 &&& dgram.getD 2 0), 0,
   dgram.getD 4 0, dgram.getD 5 0, dgram.getD 4 0, dgram.getD 5 0, 0, 0, 0, 0] ++ dgram.drop 12

/-- Cells of `response` once lines 119-132 have run. -/
def echo_cells (r : Nat → Nat) (dgram : List Nat) : Nat → Nat :=
  fun j => if j < dgram.length then (question_echo dgram).getD j 0 else r j

/-- Closed form of an error response: the echoed question with byte 3 set to `code` and
the answer count cleared. -/
def refusal (dgram : List Nat) (code : Nat) : List Nat :=
  [dgram.getD 0 0, dgram.getD 1 0, 0x84 ||| (1 &&& dgram.getD 2 0), code,
   dgram.getD 4 0, dgram.getD 5 0, 0, 0, 0, 0, 0, 0] ++ dgram.drop 12

/-- The sixteen bytes written by lines 192-215. -/
def answer_record (ip : ip4_addr_t) : List Nat :=
  [0xC0, 0x0C, 0x00, 0x01, 0x00, 0x01, 0x00, 0x00, 0x00, 0x00, 0x00, 0x04, ip.b0, ip.b1, ip.b2, ip.b3]

/-- Closed form of `idx` after the test of lines 188-189. -/
def answer_idx (dgram : List Nat) : Nat :=
  if (question_echo dgram).getD (dgram.length - 11) 0 = 0x00 ∧
      (question_echo dgram).getD (dgram.length - 10) 0 = 0x00 ∧
      (question_echo dgram).getD (dgram.length - 9) 0 = 0x29 then dgram.length - 11
  else dgram.length

/-- Closed form of the name walk: the bytes that the loop of lines 148-165 appends to
`label_buf` when it is entered at offset `i` of the cells `D`, each copied label
followed by the separator. -/
def walk_name (D : Nat → Nat) (L : Nat) : Nat → Nat → List Nat
  | 0, _ => []
  | fuel + 1, i =>
    if i < L then
      if D i = 0x00 then []
      else if L < D i + i then []
      else (List.range (D i)).map (fun k => D (i + 1 + k)) ++
        0x2E :: walk_name D L fuel (i + (D i + 1))
    else []

/-- Closed form of the decoded question name of a datagram: what the walk appends, cut to
62 bytes by lines 166-169. -/
def decoded_name (dgram : List Nat) : List Nat :=
  (walk_name (fun j => dgram.getD j 0) dgram.length (dgram.length + 1) 12).take 62

/-! ## Inputs used by the scenarios -/

/-- The wire encoding of a question name: every label preceded by its length byte,
then the zero byte that ends the name. -/
def wire_name (labels : List (List Nat)) : List Nat :=
  labels.flatMap (fun label => label.length :: label) ++ [0x00]

/-- The characters of a C string given as a list: those in front of the first NUL. -/
def c_string (s : List Nat) : List Nat := s.takeWhile (fun c => c != 0)

/-- The ANCOUNT field of a message: bytes 6-7, big-endian. -/
def ancount (msg : List Nat) : Nat := msg.getD 6 0 * 256 + msg.getD 7 0

/-- The QDCOUNT field of a message: bytes 4-5, big-endian. -/
def qdcount (msg : List Nat) : Nat := msg.getD 4 0 * 256 + msg.getD 5 0

/-- The 30-byte query of the scenarios: ID 0x1234, flags 0x0100, one question,
`portal.local`, type A, class IN. -/
def portal_query : List Nat :=
  [0x12, 0x34, 0x01, 0x00, 0x00, 0x01, 0x00, 0x00, 0x00, 0x00, 0x00, 0x00,
   0x06, 0x70, 0x6F, 0x72, 0x74, 0x61, 0x6C, 0x05, 0x6C, 0x6F, 0x63, 0x61, 0x6C, 0x00,
   0x00, 0x01, 0x00, 0x01]

/-- The same query announcing two questions (QDCOUNT = 2). -/
def portal_query_qd2 : List Nat :=
  [0x12, 0x34, 0x01, 0x00, 0x00, 0x02, 0x00, 0x00, 0x00, 0x00, 0x00, 0x00,
   0x06, 0x70, 0x6F, 0x72, 0x74, 0x61, 0x6C, 0x05, 0x6C, 0x6F, 0x63, 0x61, 0x6C, 0x00,
   0x00, 0x01, 0x00, 0x01]

/-- The query followed by an empty EDNS0 OPT record (root name, type 41, UDP size 4096,
no options), ARCOUNT = 1: 41 bytes. -/
def portal_query_opt : List Nat :=
  [0x12, 0x34, 0x01, 0x00, 0x00, 0x01, 0x00, 0x00, 0x00, 0x00, 0x00, 0x01,
   0x06, 0x70, 0x6F, 0x72, 0x74, 0x61, 0x6C, 0x05, 0x6C, 0x6F, 0x63, 0x61, 0x6C, 0x00,
   0x00, 0x01, 0x00, 0x01,
   0x00, 0x00, 0x29, 0x10, 0x00, 0x00, 0x00, 0x00, 0x00, 0x00, 0x00]

/-- A 14-byte datagram: QDCOUNT field 00 29, then the label `a` with neither
terminator nor QTYPE/QCLASS. -/
def short_query : List Nat :=
  [0x00, 0x00, 0x00, 0x00, 0x00, 0x29, 0x00, 0x00, 0x00, 0x00, 0x00, 0x00, 0x01, 0x61]

/-- A 14-byte datagram whose only label announces two bytes while one was received. -/
def overlong_label_query : List Nat :=
  [0x00, 0x00, 0x00, 0x00, 0x00, 0x01, 0x00, 0x00, 0x00, 0x00, 0x00, 0x00, 0x02, 0x61]

/-- The hostname `portal.local`. -/
def portal_local : List Nat :=
  [0x70, 0x6F, 0x72, 0x74, 0x61, 0x6C, 0x2E, 0x6C, 0x6F, 0x63, 0x61, 0x6C]

/-- The hostname `portal.local.`, with the final separator. -/
def portal_local_dot : List Nat :=
  [0x70, 0x6F, 0x72, 0x74, 0x61, 0x6C, 0x2E, 0x6C, 0x6F, 0x63, 0x61, 0x6C, 0x2E]

/-- The hostname `other.local`. -/
def other_local : List Nat :=
  [0x6F, 0x74, 0x68, 0x65, 0x72, 0x2E, 0x6C, 0x6F, 0x63, 0x61, 0x6C]

/-- The local address 10.0.0.1. -/
def ip_10_0_0_1 : ip4_addr_t := ⟨10, 0, 0, 1⟩

/-- A frame whose arrays hold leftovers: 0xAA in `data`, 0xBB in `response`, 0xCC in
`label_buf`. -/
def stale_frame : Frame := frame (fun _ => 0xAA) (fun _ => 0xBB) (fun _ => 0xCC)

/-- An 11-byte datagram: a DNS header cut one byte short. -/
def truncated_header : List Nat :=
  [0x12, 0x34, 0x01, 0x00, 0x00, 0x01, 0x00, 0x00, 0x00, 0x00, 0x00]

/-- An 80-byte datagram, as many bytes as `recvfrom` is allowed to store: the
`portal.local` query followed by 50 zero bytes. -/
def full_buffer_query : List Nat := portal_query ++ List.replicate 50 0x00

/-- A 79-byte request, the longest a pass can handle: the header of the `portal.local`
query, one label of 65 bytes and the zero byte; its decoded name has 66 bytes. -/
def longest_query : List Nat :=
  portal_query.take 12 ++ 65 :: (List.replicate 65 0x61 ++ [0x00])

/-! ## Lemmas: one pass, phase by phase -/

theorem size_t_sub (L : Nat) (h1 : 12 ≤ L) (h2 : L ≤ 79) : size_t ((L : Int) - 12) = L - 12 := by
  unfold size_t
  omega

theorem rcvd_lt (d : Nat → Nat) (dgram : List Nat) (j : Nat) (h : j < dgram.length) :
    rcvd d dgram j = dgram.getD j 0 := by
  simp [rcvd, h, Nat.ne_of_lt h]

theorem rcvd_length (d : Nat → Nat) (dgram : List Nat) : rcvd d dgram dgram.length = 0 := by
  simp [rcvd]

theorem recvfrom_eq (d : Nat → Nat) (dgram : List Nat) (h : dgram.length ≤ 79) :
    recvfrom ⟨80, d⟩ dgram =
      (⟨80, fun j => if j < dgram.length then dgram.getD j 0 else d j⟩, dgram.length) := by
  have hmin : min dgram.length 80 = dgram.length := by omega
  simp [recvfrom, hmin]

theorem store_length_eq (d : Nat → Nat) (dgram : List Nat) (h : dgram.length ≤ 79) :
    store ⟨80, fun j => if j < dgram.length then dgram.getD j 0 else d j⟩ dgram.length 0
      = .ok ⟨80, rcvd d dgram⟩ := by
  have h80 : dgram.length < 80 := by omega
  simp only [store, h80, if_true, Except.ok.injEq, Buf.mk.injEq, true_and]
  funext j
  simp [rcvd]

theorem question_echo_length (dgram : List Nat) (h : 12 ≤ dgram.length) :
    (question_echo dgram).length = dgram.length := by
  simp [question_echo]; omega

theorem question_echo_getD_ge (dgram : List Nat) (j : Nat) (hj : 12 ≤ j) :
    (question_echo dgram).getD j 0 = dgram.getD j 0 := by
  unfold question_echo
  rw [List.getD_append_right _ _ _ _ (by simpa using hj)]
  simp only [List.getD_eq_getElem?_getD, List.getElem?_drop, List.length_cons, List.length_nil]
  congr 2
  omega

theorem header_echo_eq (d r : Nat → Nat) (dgram : List Nat)
    (h1 : 12 ≤ dgram.length) (h2 : dgram.length ≤ 79) :
    (build_header ⟨80, rcvd d dgram⟩ ⟨100, r⟩ >>= fun response =>
      memcpy response 12 ⟨80, rcvd d dgram⟩ 12 (size_t ((dgram.length : Int) - 12)))
      = .ok ⟨100, echo_cells r dgram⟩ := by
  have hs := size_t_sub dgram.length h1 h2
  have e : 12 + (dgram.length - 12) = dgram.length := by omega
  have r0 := rcvd_lt d dgram 0 (by omega)
  have r1 := rcvd_lt d dgram 1 (by omega)
  have r2 := rcvd_lt d dgram 2 (by omega)
  have r4 := rcvd_lt d dgram 4 (by omega)
  have r5 := rcvd_lt d dgram 5 (by omega)
  simp only [build_header, store, load, memcpy, hs, e, bind, Except.bind, r0, r1, r2, r4, r5]
  simp only [Nat.reduceLT, if_true, h2, (by omega : dgram.length ≤ 100), (by omega : dgram.length ≤ 80), and_self]
  simp only [Except.ok.injEq, Buf.mk.injEq, true_and]
  funext j
  by_cases hj : j < 12
  · have : ¬ (12 ≤ j ∧ j < dgram.length) := by omega
    have hjl : j < dgram.length := by omega
    simp only [this, if_false, echo_cells, hjl, if_true, question_echo]
    interval_cases j <;> simp
  · by_cases hjl : j < dgram.length
    · have : (12 ≤ j ∧ j < dgram.length) := by omega
      have e2 : 12 + (j - 12) = j := by omega
      simp only [this, and_self, if_true, echo_cells, hjl, e2, rcvd_lt d dgram j hjl,
        question_echo_getD_ge dgram j (by omega)]
    · have : ¬ (12 ≤ j ∧ j < dgram.length) := by omega
      simp only [this, if_false, echo_cells, hjl]
      have h' : ∀ k, k < 12 → ¬ j = k := by omega
      simp [h']

theorem cycle_split (cfg : dns_server_config_t) (ip : ip4_addr_t) (d r l : Nat → Nat)
    (dgram : List Nat) (h1 : 12 ≤ dgram.length) (h2 : dgram.length ≤ 79) :
    receive_cycle cfg ip (frame d r l) dgram =
      (decode_name ⟨80, rcvd d dgram⟩ dgram.length ⟨128, l⟩ >>= fun label_buf =>
        if strcmp cfg.hostname label_buf.cell 0 ≠ 0 then
          some <$> send_error ⟨100, echo_cells r dgram⟩ dgram.length 0b00000101
        else
          some <$> send_answer ip ⟨80, rcvd d dgram⟩ ⟨100, echo_cells r dgram⟩ dgram.length) := by
  have hpos : dgram.length > 0 := by omega
  have hh := header_echo_eq d r dgram h1 h2
  simp only [bind, Except.bind] at hh
  unfold receive_cycle
  simp only [frame, recvfrom_eq d dgram h2, hpos, if_true, store_length_eq d dgram h2, bind, Except.bind]
  simp only [bigEndianInt, load, bind, Except.bind, Nat.reduceLT, Nat.reduceAdd, if_true, pure, Except.pure]
  rcases hb : build_header ⟨80, rcvd d dgram⟩ ⟨100, r⟩ with e | v
  · rw [hb] at hh
    simp at hh
  · rw [hb] at hh
    simp only at hh ⊢
    rw [hh]
    simp [STANDARD_QUERY]

theorem walk_ok (data : Buf) (L : Nat) (hd : data.cap = 80) (hL : L ≤ 79) :
    ∀ (fuel : Nat) (w : Walk), w.label_buf.cap = 128 → w.buf_pos + 12 = w.i → w.i ≤ L + 1 →
      L + 2 ≤ 2 * fuel + w.i →
      ∃ w', walk data L fuel w = .ok w' ∧ w'.label_buf.cap = 128 ∧ w'.buf_pos + 12 = w'.i ∧
        w'.i ≤ L + 1 := by
  intro fuel
  induction fuel with
  | zero => intro w _ _ h3 h4; omega
  | succ n ih =>
    intro w hc hb hi hf
    unfold walk
    by_cases hlt : w.i < L
    · have hld : load data w.i = .ok (data.cell w.i) := by
        simp [load, hd]; omega
      simp only [hlt, if_true, hld, bind, Except.bind, pure, Except.pure]
      by_cases hz : data.cell w.i = 0
      · simp only [hz, if_true]
        exact ⟨w, rfl, hc, hb, hi⟩
      · simp only [hz, if_false]
        by_cases hm : L < data.cell w.i + w.i
        · simp only [hm, if_true]
          exact ⟨_, rfl, hc, hb, hi⟩
        · simp only [hm, if_false]
          have hmc : memcpy w.label_buf w.buf_pos data (w.i + 1) (data.cell w.i) =
              .ok { w.label_buf with
                    cell := fun j => if w.buf_pos ≤ j ∧ j < w.buf_pos + data.cell w.i
                      then data.cell (w.i + 1 + (j - w.buf_pos)) else w.label_buf.cell j } := by
            have : w.buf_pos + data.cell w.i ≤ w.label_buf.cap ∧ w.i + 1 + data.cell w.i ≤ data.cap := by
              omega
            simp only [memcpy, this, and_self, if_true]
          simp only [hmc, store, hc, (by omega : w.buf_pos + data.cell w.i < 128), if_true]
          apply ih
          · rfl
          · show w.buf_pos + data.cell w.i + 1 + 12 = w.i + (data.cell w.i + 1)
            omega
          · show w.i + (data.cell w.i + 1) ≤ L + 1
            omega
          · show L + 2 ≤ 2 * n + (w.i + (data.cell w.i + 1))
            omega
    · simp only [hlt, if_false, pure, Except.pure]
      exact ⟨w, rfl, hc, hb, hi⟩

theorem decode_name_ok (D l : Nat → Nat) (L : Nat) (h1 : 11 ≤ L) (h2 : L ≤ 79) :
    ∃ lb, decode_name ⟨80, D⟩ L ⟨128, l⟩ = .ok lb := by
  obtain ⟨w, hw, hc, hb, hi⟩ := walk_ok ⟨80, D⟩ L rfl h2 (L + 1)
    { i := 12, buf_pos := 0, label_count := 0, label_buf := ⟨128, l⟩ } rfl rfl (by show 12 ≤ L + 1; omega)
    (by show L + 2 ≤ 2 * (L + 1) + 12; omega)
  simp only [decode_name, hw, bind, Except.bind, store, hc]
  split_ifs with ha hb' hb'
  · exact ⟨_, rfl⟩
  · omega
  · exact ⟨_, rfl⟩
  · omega

theorem decoded_eq (d r l : Nat → Nat) (dgram : List Nat) (h2 : dgram.length ≤ 79) :
    decoded (frame d r l) dgram = decode_name ⟨80, rcvd d dgram⟩ dgram.length ⟨128, l⟩ := by
  unfold decoded
  simp only [frame, recvfrom_eq d dgram h2, store_length_eq d dgram h2, bind, Except.bind]

theorem map_range_eq (f : Nat → Nat) (l : List Nat) (n : Nat) (hl : l.length = n)
    (h : ∀ j, j < n → f j = l.getD j 0) : (List.range n).map f = l := by
  apply List.ext_getElem
  · simp [hl]
  · intro j h1 h2
    simp only [List.getElem_map, List.getElem_range]
    rw [h j (by simpa using h1), List.getD_eq_getElem _ _ h2]

theorem refusal_getD_ge (dgram : List Nat) (code j : Nat) (hj : 12 ≤ j) :
    (refusal dgram code).getD j 0 = dgram.getD j 0 := by
  unfold refusal
  rw [List.getD_append_right _ _ _ _ (by simpa using hj)]
  simp only [List.getD_eq_getElem?_getD, List.getElem?_drop, List.length_cons, List.length_nil]
  congr 2
  omega

theorem send_error_eq (r : Nat → Nat) (dgram : List Nat) (code : Nat)
    (h1 : 12 ≤ dgram.length) (h2 : dgram.length ≤ 79) :
    send_error ⟨100, echo_cells r dgram⟩ dgram.length code = .ok (refusal dgram code) := by
  simp only [send_error, store, sendto, bind, Except.bind, Nat.reduceLT, if_true,
    (by omega : dgram.length ≤ 100)]
  congr 1
  apply map_range_eq
  · simp [refusal]; omega
  · intro j hj
    by_cases h12 : j < 12
    · simp only [echo_cells, hj, if_true, question_echo, refusal]
      interval_cases j <;> simp
    · have h' : ¬ j = 7 ∧ ¬ j = 6 ∧ ¬ j = 3 := by omega
      simp only [h'.1, h'.2.1, h'.2.2, if_false, echo_cells, hj, if_true,
        question_echo_getD_ge dgram j (by omega), refusal_getD_ge dgram code j (by omega)]

theorem append_answer_eq (ip : ip4_addr_t) (R : Nat → Nat) (idx : Nat) (h : idx + 16 ≤ 100) :
    append_answer ip ⟨100, R⟩ idx = .ok ((List.range idx).map R ++ answer_record ip) := by
  have hk : ∀ k, k < 16 → idx + k < 100 := by omega
  simp only [append_answer, store, memcpy, sendto, ip4_addr_t.mem, bind, Except.bind,
    (by omega : idx < 100), hk 1 (by omega), hk 2 (by omega), hk 3 (by omega), hk 4 (by omega),
    hk 5 (by omega), hk 6 (by omega), hk 7 (by omega), hk 8 (by omega), hk 9 (by omega),
    hk 10 (by omega), hk 11 (by omega), (by omega : idx + 12 + 4 ≤ 100), h, if_true,
    Nat.zero_add, Nat.le_refl, and_self]
  congr 1
  apply map_range_eq
  · simp [answer_record]
  · intro j hj
    by_cases hlt : j < idx
    · rw [List.getD_append _ _ _ _ (by simpa using hlt)]
      have hne : ∀ k, ¬ j = idx + k := by omega
      have hn0 : ¬ j = idx := by omega
      have hn12 : ¬ (idx + 12 ≤ j ∧ j < idx + 12 + 4) := by omega
      simp only [hne, hn0, hn12, if_false]
      rw [List.getD_eq_getElem _ _ (by simpa using hlt)]
      simp
    · rw [List.getD_append_right _ _ _ _ (by simpa using hlt)]
      obtain ⟨k, rfl⟩ : ∃ k, j = idx + k := ⟨j - idx, by omega⟩
      have hk16 : k < 16 := by omega
      simp only [List.length_map, List.length_range, Nat.add_sub_cancel_left]
      interval_cases k <;> simp [answer_record]

theorem recopy_eq (d r : Nat → Nat) (dgram : List Nat)
    (h1 : 12 ≤ dgram.length) (h2 : dgram.length ≤ 79) :
    memcpy ⟨100, echo_cells r dgram⟩ 12 ⟨80, rcvd d dgram⟩ 12 (size_t ((dgram.length : Int) - 12))
      = .ok ⟨100, echo_cells r dgram⟩ := by
  have e : 12 + (dgram.length - 12) = dgram.length := by omega
  simp only [memcpy, size_t_sub dgram.length h1 h2, e, (by omega : dgram.length ≤ 100),
    (by omega : dgram.length ≤ 80), and_self, if_true, Except.ok.injEq, Buf.mk.injEq, true_and]
  funext j
  by_cases hj : 12 ≤ j ∧ j < dgram.length
  · have e2 : 12 + (j - 12) = j := by omega
    simp only [hj, and_self, if_true, e2, rcvd_lt d dgram j hj.2, echo_cells,
      question_echo_getD_ge dgram j hj.1]
  · simp only [hj, if_false]

theorem load_at_eq (R : Nat → Nat) (L k : Nat) (hk : k ≤ L) (hL : L < 100) :
    load_at ⟨100, R⟩ ((L : Int) - (k : Int)) = .ok (R (L - k)) := by
  have h : (0 : Int) ≤ (L : Int) - (k : Int) ∧ (L : Int) - (k : Int) < ((100 : Nat) : Int) := by
    omega
  have e : ((L : Int) - (k : Int)).toNat = L - k := by omega
  simp only [load_at, h, and_self, if_true, e]

theorem take_echo_eq (r : Nat → Nat) (dgram : List Nat) (n : Nat)
    (h1 : 12 ≤ dgram.length) (hn : n ≤ dgram.length) :
    (List.range n).map (echo_cells r dgram) = (question_echo dgram).take n := by
  apply map_range_eq
  · simp [question_echo_length dgram h1, hn]
  · intro j hj
    simp only [echo_cells, (by omega : j < dgram.length), if_true, List.getD_eq_getElem?_getD,
      List.getElem?_take_of_lt hj]

theorem answer_idx_le (dgram : List Nat) : answer_idx dgram ≤ dgram.length := by
  unfold answer_idx
  split_ifs <;> omega

theorem send_answer_eq (ip : ip4_addr_t) (d r : Nat → Nat) (dgram : List Nat)
    (h1 : 12 ≤ dgram.length) (h2 : dgram.length ≤ 79) :
    send_answer ip ⟨80, rcvd d dgram⟩ ⟨100, echo_cells r dgram⟩ dgram.length
      = .ok ((question_echo dgram).take (answer_idx dgram) ++ answer_record ip) := by
  have l11 := load_at_eq (echo_cells r dgram) dgram.length 11 (by omega) (by omega)
  have l10 := load_at_eq (echo_cells r dgram) dgram.length 10 (by omega) (by omega)
  have l9 := load_at_eq (echo_cells r dgram) dgram.length 9 (by omega) (by omega)
  have c11 : echo_cells r dgram (dgram.length - 11) = (question_echo dgram).getD (dgram.length - 11) 0 := by
    simp only [echo_cells, (by omega : dgram.length - 11 < dgram.length), if_true]
  have c10 : echo_cells r dgram (dgram.length - 10) = (question_echo dgram).getD (dgram.length - 10) 0 := by
    simp only [echo_cells, (by omega : dgram.length - 10 < dgram.length), if_true]
  have c9 : echo_cells r dgram (dgram.length - 9) = (question_echo dgram).getD (dgram.length - 9) 0 := by
    simp only [echo_cells, (by omega : dgram.length - 9 < dgram.length), if_true]
  have hidx := answer_idx_le dgram
  rw [← take_echo_eq r dgram (answer_idx dgram) h1 hidx,
    ← append_answer_eq ip (echo_cells r dgram) (answer_idx dgram) (by omega)]
  simp only [send_answer, recopy_eq d r dgram h1 h2, bind, Except.bind]
  simp only [Nat.cast_ofNat] at l11 l10 l9
  simp only [l11, l10, l9, c11, c10, c9]
  rfl

theorem cycle_refused (cfg : dns_server_config_t) (ip : ip4_addr_t) (d r l : Nat → Nat)
    (dgram : List Nat) (h1 : 12 ≤ dgram.length) (h2 : dgram.length ≤ 79)
    (hm : name_differs cfg (frame d r l) dgram = true) :
    receive_cycle cfg ip (frame d r l) dgram = .ok (some (refusal dgram 5)) := by
  rw [cycle_split cfg ip d r l dgram h1 h2]
  unfold name_differs at hm
  rw [decoded_eq d r l dgram h2] at hm
  rcases hd : decode_name ⟨80, rcvd d dgram⟩ dgram.length ⟨128, l⟩ with e | lb
  · rw [hd] at hm
    simp at hm
  · rw [hd] at hm
    have hne : strcmp cfg.hostname lb.cell 0 ≠ 0 := by simpa using hm
    simp only [bind, Except.bind, hne, ne_eq, not_false_eq_true, if_true,
      send_error_eq r dgram 5 h1 h2]
    rfl

theorem cycle_answered (cfg : dns_server_config_t) (ip : ip4_addr_t) (d r l : Nat → Nat)
    (dgram : List Nat) (h1 : 12 ≤ dgram.length) (h2 : dgram.length ≤ 79)
    (hm : name_matches cfg (frame d r l) dgram = true) :
    receive_cycle cfg ip (frame d r l) dgram =
      .ok (some ((question_echo dgram).take (answer_idx dgram) ++ answer_record ip)) := by
  rw [cycle_split cfg ip d r l dgram h1 h2]
  unfold name_matches at hm
  rw [decoded_eq d r l dgram h2] at hm
  rcases hd : decode_name ⟨80, rcvd d dgram⟩ dgram.length ⟨128, l⟩ with e | lb
  · rw [hd] at hm
    simp at hm
  · rw [hd] at hm
    have he : strcmp cfg.hostname lb.cell 0 = 0 := by simpa using hm
    simp only [bind, Except.bind, he, ne_eq, not_true_eq_false, if_false,
      send_answer_eq ip d r dgram h1 h2]
    rfl

theorem matches_or_differs (cfg : dns_server_config_t) (d r l : Nat → Nat)
    (dgram : List Nat) (h1 : 12 ≤ dgram.length) (h2 : dgram.length ≤ 79) :
    name_matches cfg (frame d r l) dgram = true ∨ name_differs cfg (frame d r l) dgram = true := by
  obtain ⟨lb, hlb⟩ := decode_name_ok (rcvd d dgram) l dgram.length (by omega) h2
  unfold name_matches name_differs
  rw [decoded_eq d r l dgram h2, hlb]
  by_cases h : strcmp cfg.hostname lb.cell 0 = 0 <;> simp [h]


theorem flags_ne_zero (x : Nat) : ¬ (0x84 ||| (1 &&& x)) = 0 := by
  rw [Nat.one_and_eq_mod_two]
  rcases Nat.mod_two_eq_zero_or_one x with h | h <;> rw [h] <;> decide

theorem answer_idx_cases (dgram : List Nat) :
    answer_idx dgram = dgram.length ∨
      (answer_idx dgram = dgram.length - 11 ∧
        (question_echo dgram).getD (dgram.length - 11) 0 = 0x00 ∧
        (question_echo dgram).getD (dgram.length - 10) 0 = 0x00 ∧
        (question_echo dgram).getD (dgram.length - 9) 0 = 0x29) := by
  unfold answer_idx
  split_ifs with h
  · exact Or.inr ⟨rfl, h⟩
  · exact Or.inl rfl

/-- The answer is never written below index 3. -/
theorem answer_idx_ge_three (dgram : List Nat) (h1 : 12 ≤ dgram.length) :
    3 ≤ answer_idx dgram := by
  rcases answer_idx_cases dgram with h | ⟨h, a, b, c⟩
  · omega
  · by_cases h14 : 14 ≤ dgram.length
    · omega
    · exfalso
      have hL : dgram.length = 12 ∨ dgram.length = 13 := by omega
      rcases hL with hL | hL
      · rw [hL] at b
        exact flags_ne_zero _ (by simpa [question_echo] using b)
      · rw [hL] at a
        exact flags_ne_zero _ (by simpa [question_echo] using a)

/-- With 15 bytes or more the answer is never written below index 8. -/
theorem answer_idx_ge_eight (dgram : List Nat) (h1 : 15 ≤ dgram.length) :
    8 ≤ answer_idx dgram := by
  rcases answer_idx_cases dgram with h | ⟨h, a, b, c⟩
  · omega
  · by_cases h19 : 19 ≤ dgram.length
    · omega
    · exfalso
      obtain ⟨L, hL⟩ : ∃ L, dgram.length = L := ⟨_, rfl⟩
      rw [hL] at a b c h1 h19
      have hL' : L < 19 := by omega
      interval_cases L <;> simp [question_echo] at a b c <;> omega

/-- With a question count of one the answer is never written below index 8. -/
theorem answer_idx_ge_eight_of_qd (dgram : List Nat) (h1 : 12 ≤ dgram.length)
    (h5 : dgram.getD 5 0 = 1) : 8 ≤ answer_idx dgram := by
  by_cases h15 : 15 ≤ dgram.length
  · exact answer_idx_ge_eight dgram h15
  · rcases answer_idx_cases dgram with h | ⟨h, a, b, c⟩
    · omega
    · exfalso
      obtain ⟨L, hL⟩ : ∃ L, dgram.length = L := ⟨_, rfl⟩
      rw [hL] at a b c h1 h15
      have hL' : L < 15 := by omega
      interval_cases L
      · exact flags_ne_zero _ (by simpa [question_echo] using b)
      · exact flags_ne_zero _ (by simpa [question_echo] using a)
      · simp [question_echo] at c h5
        omega

/-- From 23 bytes on the three bytes tested by line 188 are bytes of the request. -/
theorem answer_idx_of_long (dgram : List Nat) (h1 : 23 ≤ dgram.length) :
    answer_idx dgram =
      if dgram.getD (dgram.length - 11) 0 = 0x00 ∧ dgram.getD (dgram.length - 10) 0 = 0x00 ∧
          dgram.getD (dgram.length - 9) 0 = 0x29 then dgram.length - 11
      else dgram.length := by
  unfold answer_idx
  rw [question_echo_getD_ge dgram _ (by omega), question_echo_getD_ge dgram _ (by omega),
    question_echo_getD_ge dgram _ (by omega)]

/-- Bytes below `idx` of a positive answer are those of the echoed question. -/
theorem answer_getElem?_lt (dgram : List Nat) (ip : ip4_addr_t) (k : Nat)
    (h1 : 12 ≤ dgram.length) (hk : k < answer_idx dgram) :
    ((question_echo dgram).take (answer_idx dgram) ++ answer_record ip)[k]? =
      (question_echo dgram)[k]? := by
  have hle := answer_idx_le dgram
  have hlen := question_echo_length dgram h1
  rw [List.getElem?_append_left (by simp; omega), List.getElem?_take_of_lt hk]

theorem some_getD (xs : List Nat) (k : Nat) (h : k < xs.length) : some (xs.getD k 0) = xs[k]? := by
  rw [List.getD_eq_getElem _ _ h, List.getElem?_eq_getElem h]

/-- The last sixteen bytes of a positive answer are the address record. -/
theorem answer_tail (dgram : List Nat) (ip : ip4_addr_t) (h1 : 12 ≤ dgram.length) :
    ((question_echo dgram).take (answer_idx dgram) ++ answer_record ip).length =
        answer_idx dgram + 16 ∧
      ((question_echo dgram).take (answer_idx dgram) ++ answer_record ip).drop (answer_idx dgram) =
        answer_record ip := by
  have hle := answer_idx_le dgram
  have hlen := question_echo_length dgram h1
  have ht : ((question_echo dgram).take (answer_idx dgram)).length = answer_idx dgram := by
    simp; omega
  exact ⟨by simp [answer_record]; omega, List.drop_left' ht⟩

/-- Header bytes of the echoed question. -/
theorem question_echo_header (dgram : List Nat) (h1 : 12 ≤ dgram.length) :
    (question_echo dgram)[0]? = dgram[0]? ∧ (question_echo dgram)[1]? = dgram[1]? ∧
      (question_echo dgram)[2]? = some (0x84 ||| (dgram.getD 2 0 &&& 0x01)) ∧
      (question_echo dgram)[3]? = some 0x00 ∧
      (question_echo dgram)[4]? = dgram[4]? ∧ (question_echo dgram)[5]? = dgram[5]? ∧
      (question_echo dgram)[6]? = dgram[4]? ∧ (question_echo dgram)[7]? = dgram[5]? ∧
      (question_echo dgram)[8]? = some 0x00 ∧ (question_echo dgram)[9]? = some 0x00 ∧
      (question_echo dgram)[10]? = some 0x00 ∧ (question_echo dgram)[11]? = some 0x00 := by
  have e0 := some_getD dgram 0 (by omega)
  have e1 := some_getD dgram 1 (by omega)
  have e4 := some_getD dgram 4 (by omega)
  have e5 := some_getD dgram 5 (by omega)
  refine ⟨?_, ?_, ?_, ?_, ?_, ?_, ?_, ?_, ?_, ?_, ?_, ?_⟩ <;>
    simp only [question_echo, List.cons_append, List.getElem?_cons_zero, List.getElem?_cons_succ,
      e0, e1, e4, e5, Nat.and_comm 1]

/-- Header bytes of an error response. -/
theorem refusal_header (dgram : List Nat) (code : Nat) (h1 : 12 ≤ dgram.length) :
    (refusal dgram code).length = dgram.length ∧
      (refusal dgram code)[0]? = dgram[0]? ∧ (refusal dgram code)[1]? = dgram[1]? ∧
      (refusal dgram code)[2]? = some (0x84 ||| (dgram.getD 2 0 &&& 0x01)) ∧
      (refusal dgram code)[3]? = some code ∧
      (refusal dgram code)[4]? = dgram[4]? ∧ (refusal dgram code)[5]? = dgram[5]? ∧
      (refusal dgram code)[6]? = some 0x00 ∧ (refusal dgram code)[7]? = some 0x00 ∧
      (refusal dgram code)[8]? = some 0x00 ∧ (refusal dgram code)[9]? = some 0x00 ∧
      (refusal dgram code)[10]? = some 0x00 ∧ (refusal dgram code)[11]? = some 0x00 ∧
      (refusal dgram code).drop 12 = dgram.drop 12 := by
  have e0 := some_getD dgram 0 (by omega)
  have e1 := some_getD dgram 1 (by omega)
  have e4 := some_getD dgram 4 (by omega)
  have e5 := some_getD dgram 5 (by omega)
  refine ⟨?_, ?_, ?_, ?_, ?_, ?_, ?_, ?_, ?_, ?_, ?_, ?_, ?_, ?_⟩
  · simp [refusal]; omega
  all_goals
    simp only [refusal, List.cons_append, List.getElem?_cons_zero, List.getElem?_cons_succ,
      e0, e1, e4, e5, Nat.and_comm 1, List.drop_succ_cons, List.nil_append, List.drop_zero]

/-! ## The claims -/

/-- C1 (evaluation at the failing input). With `answer_all = true` and the hostname
`other.local`, the query for `portal.local` is answered REFUSED: 30 bytes, byte 3 = 0x05,
ANCOUNT = 0 and no address record. The flag is only read by the logging of lines 59-66. -/
theorem answer_all_not_consulted :
    receive_cycle ⟨other_local, true⟩ ip_10_0_0_1 stale_frame portal_query =
      .ok (some [0x12, 0x34, 0x85, 0x05, 0x00, 0x01, 0x00, 0x00, 0x00, 0x00, 0x00, 0x00,
        0x06, 0x70, 0x6F, 0x72, 0x74, 0x61, 0x6C, 0x05, 0x6C, 0x6F, 0x63, 0x61, 0x6C, 0x00,
        0x00, 0x01, 0x00, 0x01]) := by
  rfl

/-- C2 (counterexample). For the 30-byte `portal.local` query with hostname
`portal.local`, `answer_all = false` and address 10.0.0.1 the pass sends the 30-byte
REFUSED response, not the 46-byte answer of the scenario. -/
theorem portal_local_is_refused :
    receive_cycle ⟨portal_local, false⟩ ip_10_0_0_1 stale_frame portal_query =
        .ok (some [0x12, 0x34, 0x85, 0x05, 0x00, 0x01, 0x00, 0x00, 0x00, 0x00, 0x00, 0x00,
          0x06, 0x70, 0x6F, 0x72, 0x74, 0x61, 0x6C, 0x05, 0x6C, 0x6F, 0x63, 0x61, 0x6C, 0x00,
          0x00, 0x01, 0x00, 0x01]) ∧
      receive_cycle ⟨portal_local, false⟩ ip_10_0_0_1 stale_frame portal_query ≠
        .ok (some [0x12, 0x34, 0x85, 0x00, 0x00, 0x01, 0x00, 0x01, 0x00, 0x00, 0x00, 0x00,
          0x06, 0x70, 0x6F, 0x72, 0x74, 0x61, 0x6C, 0x05, 0x6C, 0x6F, 0x63, 0x61, 0x6C, 0x00,
          0x00, 0x01, 0x00, 0x01,
          0xC0, 0x0C, 0x00, 0x01, 0x00, 0x01, 0x00, 0x00, 0x00, 0x00, 0x00, 0x04,
          0x0A, 0x00, 0x00, 0x01]) := by
  have h : receive_cycle ⟨portal_local, false⟩ ip_10_0_0_1 stale_frame portal_query =
        .ok (some [0x12, 0x34, 0x85, 0x05, 0x00, 0x01, 0x00, 0x00, 0x00, 0x00, 0x00, 0x00,
          0x06, 0x70, 0x6F, 0x72, 0x74, 0x61, 0x6C, 0x05, 0x6C, 0x6F, 0x63, 0x61, 0x6C, 0x00,
          0x00, 0x01, 0x00, 0x01]) := by rfl
  refine ⟨h, ?_⟩
  rw [h]
  simp

/-- C2 (amended). Whatever the three arrays held before, the 30-byte `portal.local`
query with hostname `portal.local.` (final separator included), `answer_all = false` and
address 10.0.0.1 is answered with the 46-byte response of the scenario: ID 0x1234, flags
byte 0x85, RCODE 0, QDCOUNT 1, ANCOUNT 1, NSCOUNT 0, ARCOUNT 0, the 18 question bytes,
then C0 0C 00 01 00 01 00 00 00 00 00 04 0A 00 00 01; with hostname `portal.local` it is
answered with the 30-byte REFUSED response. -/
theorem portal_local_dot_is_answered (d r l : Nat → Nat) :
    receive_cycle ⟨portal_local_dot, false⟩ ip_10_0_0_1 (frame d r l) portal_query =
        .ok (some [0x12, 0x34, 0x85, 0x00, 0x00, 0x01, 0x00, 0x01, 0x00, 0x00, 0x00, 0x00,
          0x06, 0x70, 0x6F, 0x72, 0x74, 0x61, 0x6C, 0x05, 0x6C, 0x6F, 0x63, 0x61, 0x6C, 0x00,
          0x00, 0x01, 0x00, 0x01,
          0xC0, 0x0C, 0x00, 0x01, 0x00, 0x01, 0x00, 0x00, 0x00, 0x00, 0x00, 0x04,
          0x0A, 0x00, 0x00, 0x01]) ∧
      receive_cycle ⟨portal_local, false⟩ ip_10_0_0_1 (frame d r l) portal_query =
        .ok (some [0x12, 0x34, 0x85, 0x05, 0x00, 0x01, 0x00, 0x00, 0x00, 0x00, 0x00, 0x00,
          0x06, 0x70, 0x6F, 0x72, 0x74, 0x61, 0x6C, 0x05, 0x6C, 0x6F, 0x63, 0x61, 0x6C, 0x00,
          0x00, 0x01, 0x00, 0x01]) := by
  have hm : name_matches ⟨portal_local_dot, false⟩ (frame d r l) portal_query = true := by
    simp [name_matches, decoded, frame, recvfrom, portal_query, store, decode_name, walk, load,
      memcpy, bind, Except.bind, pure, Except.pure, strcmp, portal_local_dot]
  have hd : name_differs ⟨portal_local, false⟩ (frame d r l) portal_query = true := by
    simp [name_differs, decoded, frame, recvfrom, portal_query, store, decode_name, walk, load,
      memcpy, bind, Except.bind, pure, Except.pure, strcmp, portal_local]
  constructor
  · rw [cycle_answered _ _ d r l portal_query (by decide) (by decide) hm]
    rfl
  · rw [cycle_refused _ _ d r l portal_query (by decide) (by decide) hd]
    rfl

/-- C3. A request of 17 to 79 bytes made of a 12-byte header with QDCOUNT = 1, a
well-formed question name (non-empty labels, then a zero byte) and four bytes of
QTYPE/QCLASS, with `answer_all = false` and a decoded name equal to the hostname, is
answered: ANCOUNT = 1, byte 3 = 0x00, bytes 0-1 are the request's ID, and the last 16
bytes are the address record, with TTL 00 00 00 00 and the local address as RDATA. -/
theorem matching_query_is_answered (cfg : dns_server_config_t) (ip : ip4_addr_t)
    (d r l : Nat → Nat) (dgram header qtail : List Nat) (labels : List (List Nat))
    (hshape : dgram = header ++ wire_name labels ++ qtail)
    (hheader : header.length = 12) (hqd : header[4]? = some 0x00 ∧ header[5]? = some 0x01)
    (hlabels : ∀ label ∈ labels, label ≠ []) (hqtail : qtail.length = 4)
    (h17 : 17 ≤ dgram.length) (h79 : dgram.length ≤ 79)
    (hall : cfg.answer_all = false)
    (hm : name_matches cfg (frame d r l) dgram = true) :
    ∃ sent, receive_cycle cfg ip (frame d r l) dgram = .ok (some sent) ∧
      sent[6]? = some 0x00 ∧ sent[7]? = some 0x01 ∧ sent[3]? = some 0x00 ∧
      sent[0]? = dgram[0]? ∧ sent[1]? = dgram[1]? ∧
      16 ≤ sent.length ∧
      sent.drop (sent.length - 16) =
        [0xC0, 0x0C, 0x00, 0x01, 0x00, 0x01, 0x00, 0x00, 0x00, 0x00, 0x00, 0x04,
          ip.b0, ip.b1, ip.b2, ip.b3] := by
  have _ := hlabels
  have _ := hqtail
  have _ := hall
  have h12 : 12 ≤ dgram.length := by omega
  have hidx := answer_idx_ge_eight dgram (by omega)
  obtain ⟨hlen, htail⟩ := answer_tail dgram ip h12
  obtain ⟨q0, q1, _, q3, _, _, q6, q7, _⟩ := question_echo_header dgram h12
  have d4 : dgram[4]? = some 0x00 := by
    rw [hshape, List.append_assoc, List.getElem?_append_left (by omega)]
    exact hqd.1
  have d5 : dgram[5]? = some 0x01 := by
    rw [hshape, List.append_assoc, List.getElem?_append_left (by omega)]
    exact hqd.2
  refine ⟨_, cycle_answered cfg ip d r l dgram h12 h79 hm, ?_, ?_, ?_, ?_, ?_, ?_, ?_⟩
  · rw [answer_getElem?_lt dgram ip 6 h12 (by omega), q6, d4]
  · rw [answer_getElem?_lt dgram ip 7 h12 (by omega), q7, d5]
  · rw [answer_getElem?_lt dgram ip 3 h12 (by omega), q3]
  · rw [answer_getElem?_lt dgram ip 0 h12 (by omega), q0]
  · rw [answer_getElem?_lt dgram ip 1 h12 (by omega), q1]
  · omega
  · rw [hlen, Nat.add_sub_cancel, htail]
    rfl

/-- C3 (witness): the `portal.local` query with hostname `portal.local.`. -/
theorem matching_query_is_answered_witness :
    ∃ sent, receive_cycle ⟨portal_local_dot, false⟩ ip_10_0_0_1 stale_frame portal_query =
        .ok (some sent) ∧
      sent[6]? = some 0x00 ∧ sent[7]? = some 0x01 ∧ sent[3]? = some 0x00 ∧
      sent[0]? = portal_query[0]? ∧ sent[1]? = portal_query[1]? ∧
      16 ≤ sent.length ∧
      sent.drop (sent.length - 16) =
        [0xC0, 0x0C, 0x00, 0x01, 0x00, 0x01, 0x00, 0x00, 0x00, 0x00, 0x00, 0x04,
          ip_10_0_0_1.b0, ip_10_0_0_1.b1, ip_10_0_0_1.b2, ip_10_0_0_1.b3] :=
  matching_query_is_answered ⟨portal_local_dot, false⟩ ip_10_0_0_1
    (fun _ => 0xAA) (fun _ => 0xBB) (fun _ => 0xCC) portal_query
    [0x12, 0x34, 0x01, 0x00, 0x00, 0x01, 0x00, 0x00, 0x00, 0x00, 0x00, 0x00]
    [0x00, 0x01, 0x00, 0x01]
    [[0x70, 0x6F, 0x72, 0x74, 0x61, 0x6C], [0x6C, 0x6F, 0x63, 0x61, 0x6C]]
    (by decide) (by decide) (by decide) (by decide) (by decide) (by decide) (by decide)
    (by decide) (by decide)

/-- C4. With `answer_all = false`, a request of 12 to 79 bytes whose decoded name differs
from the hostname is answered with exactly as many bytes as were received: byte 3 = 0x05,
ANCOUNT bytes 00 00, and bytes [12, L) equal to those of the request; nothing is
appended. -/
theorem differing_query_is_refused (cfg : dns_server_config_t) (ip : ip4_addr_t)
    (d r l : Nat → Nat) (dgram : List Nat)
    (h12 : 12 ≤ dgram.length) (h79 : dgram.length ≤ 79)
    (hall : cfg.answer_all = false)
    (hm : name_differs cfg (frame d r l) dgram = true) :
    ∃ sent, receive_cycle cfg ip (frame d r l) dgram = .ok (some sent) ∧
      sent.length = dgram.length ∧ sent[3]? = some 0x05 ∧
      sent[6]? = some 0x00 ∧ sent[7]? = some 0x00 ∧
      sent.drop 12 = dgram.drop 12 := by
  have _ := hall
  obtain ⟨hlen, _, _, _, q3, _, _, q6, q7, _, _, _, _, hdrop⟩ := refusal_header dgram 5 h12
  exact ⟨_, cycle_refused cfg ip d r l dgram h12 h79 hm, hlen, q3, q6, q7, hdrop⟩

/-- C4 (witness): the second scenario, the `portal.local` query with hostname
`other.local`. -/
theorem differing_query_is_refused_witness :
    ∃ sent, receive_cycle ⟨other_local, false⟩ ip_10_0_0_1 stale_frame portal_query =
        .ok (some sent) ∧
      sent.length = portal_query.length ∧ sent[3]? = some 0x05 ∧
      sent[6]? = some 0x00 ∧ sent[7]? = some 0x00 ∧
      sent.drop 12 = portal_query.drop 12 :=
  differing_query_is_refused ⟨other_local, false⟩ ip_10_0_0_1
    (fun _ => 0xAA) (fun _ => 0xBB) (fun _ => 0xCC) portal_query
    (by decide) (by decide) rfl (by decide)

/-- C5. Whenever a request of 12 to 79 bytes is answered positively, the last 16 bytes
sent are C0 0C, 00 01, 00 01, 00 00 00 00, 00 04 and the four bytes of the local
address. -/
theorem answer_ends_with_record (cfg : dns_server_config_t) (ip : ip4_addr_t)
    (d r l : Nat → Nat) (dgram : List Nat)
    (h12 : 12 ≤ dgram.length) (h79 : dgram.length ≤ 79)
    (hm : name_matches cfg (frame d r l) dgram = true) :
    ∃ sent, receive_cycle cfg ip (frame d r l) dgram = .ok (some sent) ∧
      16 ≤ sent.length ∧
      sent.drop (sent.length - 16) =
        [0xC0, 0x0C, 0x00, 0x01, 0x00, 0x01, 0x00, 0x00, 0x00, 0x00, 0x00, 0x04,
          ip.b0, ip.b1, ip.b2, ip.b3] := by
  obtain ⟨hlen, htail⟩ := answer_tail dgram ip h12
  refine ⟨_, cycle_answered cfg ip d r l dgram h12 h79 hm, by omega, ?_⟩
  rw [hlen, Nat.add_sub_cancel, htail]
  rfl

/-- C5 (witness): the 14-byte datagram answered for the hostname `a.`, where the record
is written from index 3 on. -/
theorem answer_ends_with_record_witness :
    ∃ sent, receive_cycle ⟨[0x61, 0x2E], false⟩ ip_10_0_0_1 stale_frame short_query =
        .ok (some sent) ∧
      16 ≤ sent.length ∧
      sent.drop (sent.length - 16) =
        [0xC0, 0x0C, 0x00, 0x01, 0x00, 0x01, 0x00, 0x00, 0x00, 0x00, 0x00, 0x04,
          ip_10_0_0_1.b0, ip_10_0_0_1.b1, ip_10_0_0_1.b2, ip_10_0_0_1.b3] :=
  answer_ends_with_record ⟨[0x61, 0x2E], false⟩ ip_10_0_0_1
    (fun _ => 0xAA) (fun _ => 0xBB) (fun _ => 0xCC) short_query
    (by decide) (by decide) (by decide)

/-- C6. EDNS0 strip: a request of 23 to 79 bytes whose bytes L-11, L-10, L-9 are
00 00 29 and whose decoded name matches the hostname is answered with L + 5 bytes: the
12-byte header, the request bytes [12, L-11) and then at once the 16-byte address record;
no byte of the request from index L-11 on is sent. -/
theorem opt_record_is_stripped (cfg : dns_server_config_t) (ip : ip4_addr_t)
    (d r l : Nat → Nat) (dgram : List Nat)
    (h23 : 23 ≤ dgram.length) (h79 : dgram.length ≤ 79)
    (hopt : dgram[dgram.length - 11]? = some 0x00 ∧ dgram[dgram.length - 10]? = some 0x00 ∧
      dgram[dgram.length - 9]? = some 0x29)
    (hm : name_matches cfg (frame d r l) dgram = true) :
    ∃ sent, receive_cycle cfg ip (frame d r l) dgram = .ok (some sent) ∧
      sent.length = dgram.length + 5 ∧
      sent =
        [dgram.getD 0 0, dgram.getD 1 0, 0x84 ||| (dgram.getD 2 0 &&& 0x01), 0x00,
          dgram.getD 4 0, dgram.getD 5 0, dgram.getD 4 0, dgram.getD 5 0,
          0x00, 0x00, 0x00, 0x00] ++
        (dgram.drop 12).take (dgram.length - 23) ++
        [0xC0, 0x0C, 0x00, 0x01, 0x00, 0x01, 0x00, 0x00, 0x00, 0x00, 0x00, 0x04,
          ip.b0, ip.b1, ip.b2, ip.b3] := by
  have h12 : 12 ≤ dgram.length := by omega
  have hidx : answer_idx dgram = dgram.length - 11 := by
    rw [answer_idx_of_long dgram h23]
    simp only [List.getD_eq_getElem?_getD, hopt.1, hopt.2.1, hopt.2.2, Option.getD_some,
      and_self, if_true]
  obtain ⟨hlen, _⟩ := answer_tail dgram ip h12
  refine ⟨_, cycle_answered cfg ip d r l dgram h12 h79 hm, by omega, ?_⟩
  rw [hidx]
  simp only [question_echo, answer_record, Nat.and_comm 1]
  rw [List.take_append_eq_append_take, List.take_of_length_le (by simp; omega)]
  simp only [List.length_cons, List.length_nil]
  have e : dgram.length - 11 - (0 + 1 + 1 + 1 + 1 + 1 + 1 + 1 + 1 + 1 + 1 + 1 + 1)
      = dgram.length - 23 := by omega
  rw [e]

/-- C6 (witness): the `portal.local` query followed by an empty OPT record, 41 bytes,
answered with 46 bytes. -/
theorem opt_record_is_stripped_witness :
    ∃ sent, receive_cycle ⟨portal_local_dot, false⟩ ip_10_0_0_1 stale_frame portal_query_opt =
        .ok (some sent) ∧
      sent.length = portal_query_opt.length + 5 ∧
      sent =
        [portal_query_opt.getD 0 0, portal_query_opt.getD 1 0,
          0x84 ||| (portal_query_opt.getD 2 0 &&& 0x01), 0x00,
          portal_query_opt.getD 4 0, portal_query_opt.getD 5 0,
          portal_query_opt.getD 4 0, portal_query_opt.getD 5 0,
          0x00, 0x00, 0x00, 0x00] ++
        (portal_query_opt.drop 12).take (portal_query_opt.length - 23) ++
        [0xC0, 0x0C, 0x00, 0x01, 0x00, 0x01, 0x00, 0x00, 0x00, 0x00, 0x00, 0x04,
          ip_10_0_0_1.b0, ip_10_0_0_1.b1, ip_10_0_0_1.b2, ip_10_0_0_1.b3] :=
  opt_record_is_stripped ⟨portal_local_dot, false⟩ ip_10_0_0_1
    (fun _ => 0xAA) (fun _ => 0xBB) (fun _ => 0xCC) portal_query_opt
    (by decide) (by decide) (by decide) (by decide)

/-- C7 (counterexample). The `portal.local` query announcing two questions, with hostname
`portal.local.`, is answered with ANCOUNT = 2 (bytes 6-7 are 00 02): the answer count is
a copy of the question count. -/
theorem ancount_follows_qdcount :
    receive_cycle ⟨portal_local_dot, false⟩ ip_10_0_0_1 stale_frame portal_query_qd2 =
        .ok (some [0x12, 0x34, 0x85, 0x00, 0x00, 0x02, 0x00, 0x02, 0x00, 0x00, 0x00, 0x00,
          0x06, 0x70, 0x6F, 0x72, 0x74, 0x61, 0x6C, 0x05, 0x6C, 0x6F, 0x63, 0x61, 0x6C, 0x00,
          0x00, 0x01, 0x00, 0x01,
          0xC0, 0x0C, 0x00, 0x01, 0x00, 0x01, 0x00, 0x00, 0x00, 0x00, 0x00, 0x04,
          0x0A, 0x00, 0x00, 0x01]) ∧
      ancount [0x12, 0x34, 0x85, 0x00, 0x00, 0x02, 0x00, 0x02, 0x00, 0x00, 0x00, 0x00,
          0x06, 0x70, 0x6F, 0x72, 0x74, 0x61, 0x6C, 0x05, 0x6C, 0x6F, 0x63, 0x61, 0x6C, 0x00,
          0x00, 0x01, 0x00, 0x01,
          0xC0, 0x0C, 0x00, 0x01, 0x00, 0x01, 0x00, 0x00, 0x00, 0x00, 0x00, 0x04,
          0x0A, 0x00, 0x00, 0x01] = 2 :=
  ⟨by rfl, by decide⟩

/-- The record is written below index 8 only for a 14-byte request whose QDCOUNT field is
00 29. -/
theorem answer_idx_ge_eight_unless (dgram : List Nat) (h1 : 12 ≤ dgram.length)
    (hx : ¬ (dgram.length = 14 ∧ dgram.getD 4 0 = 0x00 ∧ dgram.getD 5 0 = 0x29)) :
    8 ≤ answer_idx dgram := by
  by_cases h15 : 15 ≤ dgram.length
  · exact answer_idx_ge_eight dgram h15
  · rcases answer_idx_cases dgram with h | ⟨h, a, b, c⟩
    · omega
    · exfalso
      obtain ⟨L, hL⟩ : ∃ L, dgram.length = L := ⟨_, rfl⟩
      rw [hL] at a b c h1 h15 hx
      have hL' : L < 15 := by omega
      interval_cases L
      · exact flags_ne_zero _ (by simpa [question_echo] using b)
      · exact flags_ne_zero _ (by simpa [question_echo] using a)
      · simp [question_echo] at b c
        have b' : dgram.getD 4 0 = 0 := by rw [List.getD_eq_getElem?_getD]; exact b
        have c' : dgram.getD 5 0 = 41 := by rw [List.getD_eq_getElem?_getD]; exact c
        exact hx ⟨rfl, b', c'⟩

/-- The test of line 172 has one outcome. -/
theorem matches_not_differs (cfg : dns_server_config_t) (f : Frame) (dgram : List Nat)
    (hm : name_matches cfg f dgram = true) (hd : name_differs cfg f dgram = true) : False := by
  unfold name_matches at hm
  unfold name_differs at hd
  rcases h : decoded f dgram with e | lb
  · rw [h] at hm
    simp at hm
  · rw [h] at hm hd
    simp only [beq_iff_eq] at hm
    simp [hm] at hd

/-- C7 (amended). For a request of 12 to 79 bytes with any header counts, under every
configuration: when the decoded name differs from the hostname the ANCOUNT field of the
response is 0; when the request is answered, bytes 6-7 of the response are bytes 4-5 of
the request, its QDCOUNT, 14-byte requests with QDCOUNT field 00 29 excepted; so ANCOUNT
is 0 or 1 whenever the request's QDCOUNT is 0 or 1. -/
theorem ancount_zero_or_qdcount (cfg : dns_server_config_t) (ip : ip4_addr_t)
    (d r l : Nat → Nat) (dgram : List Nat)
    (h12 : 12 ≤ dgram.length) (h79 : dgram.length ≤ 79) :
    ∃ sent, receive_cycle cfg ip (frame d r l) dgram = .ok (some sent) ∧
      (name_differs cfg (frame d r l) dgram = true → ancount sent = 0) ∧
      (name_matches cfg (frame d r l) dgram = true →
        ¬ (dgram.length = 14 ∧ dgram[4]? = some 0x00 ∧ dgram[5]? = some 0x29) →
        sent[6]? = dgram[4]? ∧ sent[7]? = dgram[5]? ∧ ancount sent = qdcount dgram) ∧
      (qdcount dgram ≤ 1 → ancount sent = 0 ∨ ancount sent = 1) := by
  have e4 := some_getD dgram 4 (by omega)
  have e5 := some_getD dgram 5 (by omega)
  have hansw : ¬ (dgram.length = 14 ∧ dgram.getD 4 0 = 0x00 ∧ dgram.getD 5 0 = 0x29) →
      ((question_echo dgram).take (answer_idx dgram) ++ answer_record ip)[6]? = dgram[4]? ∧
      ((question_echo dgram).take (answer_idx dgram) ++ answer_record ip)[7]? = dgram[5]? ∧
      ancount ((question_echo dgram).take (answer_idx dgram) ++ answer_record ip) =
        qdcount dgram := by
    intro hx
    have hidx := answer_idx_ge_eight_unless dgram h12 hx
    obtain ⟨_, _, _, _, _, _, q6, q7, _⟩ := question_echo_header dgram h12
    have s6 := answer_getElem?_lt dgram ip 6 h12 (by omega)
    have s7 := answer_getElem?_lt dgram ip 7 h12 (by omega)
    refine ⟨by rw [s6, q6], by rw [s7, q7], ?_⟩
    simp only [ancount, qdcount, List.getD_eq_getElem?_getD, s6, s7, q6, q7]
  have hdiff : ancount (refusal dgram 5) = 0 := by
    obtain ⟨_, _, _, _, _, _, _, q6, q7, _⟩ := refusal_header dgram 5 h12
    simp only [ancount, List.getD_eq_getElem?_getD, q6, q7, Option.getD_some]
  rcases matches_or_differs cfg d r l dgram h12 h79 with hm | hm
  · refine ⟨_, cycle_answered cfg ip d r l dgram h12 h79 hm, ?_, ?_, ?_⟩
    · intro hd
      exact (matches_not_differs cfg _ dgram hm hd).elim
    · intro _ hx
      apply hansw
      rintro ⟨a, b, c⟩
      apply hx
      rw [← e4, ← e5, b, c]
      exact ⟨a, rfl, rfl⟩
    · intro hq
      have hq' : dgram.getD 4 0 = 0 ∧ dgram.getD 5 0 ≤ 1 := by
        unfold qdcount at hq
        omega
      obtain ⟨_, _, ha⟩ := hansw (by omega)
      rw [ha]
      unfold qdcount
      omega
  · exact ⟨_, cycle_refused cfg ip d r l dgram h12 h79 hm, fun _ => hdiff,
      fun hm' => (matches_not_differs cfg _ dgram hm' hm).elim, fun _ => Or.inl hdiff⟩

/-- C7 (witness): the `portal.local` query announcing two questions, with hostname
`portal.local.`, is answered with bytes 6-7 equal to its bytes 4-5, ANCOUNT = QDCOUNT. -/
theorem ancount_zero_or_qdcount_witness :
    ∃ sent, receive_cycle ⟨portal_local_dot, false⟩ ip_10_0_0_1 stale_frame portal_query_qd2 =
        .ok (some sent) ∧
      sent[6]? = portal_query_qd2[4]? ∧ sent[7]? = portal_query_qd2[5]? ∧
      ancount sent = qdcount portal_query_qd2 := by
  obtain ⟨sent, h, _, ha, _⟩ := ancount_zero_or_qdcount ⟨portal_local_dot, false⟩ ip_10_0_0_1
    (fun _ => 0xAA) (fun _ => 0xBB) (fun _ => 0xCC) portal_query_qd2 (by decide) (by decide)
  exact ⟨sent, h, ha (by decide) (by decide)⟩

/-- C8 (evaluation at the failing input). The 14-byte datagram with QDCOUNT field 00 29
and the single label `a`, with hostname `a.`, is answered with 19 bytes in which the
address record starts at index 3: bytes 4-5 are 0C 00 (the request had 00 29) and bytes
8-9 are 01 00. -/
theorem record_overwrites_header :
    receive_cycle ⟨[0x61, 0x2E], false⟩ ip_10_0_0_1 stale_frame short_query =
      .ok (some [0x00, 0x00, 0x84, 0xC0, 0x0C, 0x00, 0x01, 0x00, 0x01, 0x00, 0x00, 0x00, 0x00,
        0x00, 0x04, 0x0A, 0x00, 0x00, 0x01]) := by
  rfl

/-- C9. For a request of 12 to 79 bytes, under every configuration and in every branch,
bytes 0-1 of the response are bytes 0-1 of the request and byte 2 is
0x84 OR (request byte 2 AND 0x01). -/
theorem id_and_flags_echoed (cfg : dns_server_config_t) (ip : ip4_addr_t)
    (d r l : Nat → Nat) (dgram : List Nat)
    (h12 : 12 ≤ dgram.length) (h79 : dgram.length ≤ 79) :
    ∃ sent, receive_cycle cfg ip (frame d r l) dgram = .ok (some sent) ∧
      sent[0]? = dgram[0]? ∧ sent[1]? = dgram[1]? ∧
      sent[2]? = some (0x84 ||| (dgram.getD 2 0 &&& 0x01)) := by
  rcases matches_or_differs cfg d r l dgram h12 h79 with hm | hm
  · have hidx := answer_idx_ge_three dgram h12
    obtain ⟨q0, q1, q2, _⟩ := question_echo_header dgram h12
    refine ⟨_, cycle_answered cfg ip d r l dgram h12 h79 hm, ?_, ?_, ?_⟩
    · rw [answer_getElem?_lt dgram ip 0 h12 (by omega), q0]
    · rw [answer_getElem?_lt dgram ip 1 h12 (by omega), q1]
    · rw [answer_getElem?_lt dgram ip 2 h12 (by omega), q2]
  · obtain ⟨_, q0, q1, q2, _⟩ := refusal_header dgram 5 h12
    exact ⟨_, cycle_refused cfg ip d r l dgram h12 h79 hm, q0, q1, q2⟩

/-- C9 (witness): the 14-byte datagram whose answer record is written from index 3 on. -/
theorem id_and_flags_echoed_witness :
    ∃ sent, receive_cycle ⟨[0x61, 0x2E], true⟩ ip_10_0_0_1 stale_frame short_query =
        .ok (some sent) ∧
      sent[0]? = short_query[0]? ∧ sent[1]? = short_query[1]? ∧
      sent[2]? = some (0x84 ||| (short_query.getD 2 0 &&& 0x01)) :=
  id_and_flags_echoed ⟨[0x61, 0x2E], true⟩ ip_10_0_0_1
    (fun _ => 0xAA) (fun _ => 0xBB) (fun _ => 0xCC) short_query (by decide) (by decide)

/-- C10 (evaluation at the failing input). In the 14-byte datagram whose label at offset
12 announces two bytes, i + n = 14 exceeds L - 1 = 13, yet the walk does not stop there:
the decoded name holds `a`, the byte of index 14 (the NUL stored by line 108) and the
separator. Run on a `data` array holding 0x77 at index 14, the same walk copies that
byte into `label_buf[1]` and ends with `i = 15`, `buf_pos = 3`. -/
theorem label_reaching_index_length_is_copied :
    (decoded stale_frame overlong_label_query).map
        (fun b => [b.cell 0, b.cell 1, b.cell 2, b.cell 3]) = .ok [0x61, 0x00, 0x2E, 0x00] ∧
      (walk ⟨80, fun j => if j = 12 then 0x02 else if j = 13 then 0x61 else
          if j = 14 then 0x77 else 0xAA⟩ 14 15
          { i := 12, buf_pos := 0, label_count := 0, label_buf := ⟨128, fun _ => 0xCC⟩ }).map
        (fun w => (w.i, w.buf_pos, w.label_buf.cell 1)) = .ok (15, 3, 0x77) :=
  ⟨by rfl, by rfl⟩

/-- C11 (evaluation at the failing inputs). An 11-byte datagram makes the count of the
copy of line 132, `length - 12`, negative; converted to `size_t` it is 4294967295 and the
copy leaves both arrays. An 80-byte datagram fills `data[80]` and line 108 then writes
`data[80]`. Each pass ends at its out-of-range access with the fault `out_of_bounds`. -/
theorem short_and_full_datagrams_fault :
    size_t (((truncated_header.length : Nat) : Int) - 12) = 4294967295 ∧
      receive_cycle ⟨portal_local_dot, false⟩ ip_10_0_0_1 stale_frame truncated_header =
        .error .out_of_bounds ∧
      full_buffer_query.length = 80 ∧
      receive_cycle ⟨portal_local_dot, false⟩ ip_10_0_0_1 stale_frame full_buffer_query =
        .error .out_of_bounds :=
  ⟨by decide, by rfl, by decide, by rfl⟩

/-- Byte 3 of a positive answer: 0x00, or 0xC0 when the record starts at index 3. -/
theorem answer_byte_three (dgram : List Nat) (ip : ip4_addr_t) (h1 : 12 ≤ dgram.length) :
    ((question_echo dgram).take (answer_idx dgram) ++ answer_record ip)[3]? = some 0x00 ∨
      ((question_echo dgram).take (answer_idx dgram) ++ answer_record ip)[3]? = some 0xC0 := by
  have h3 := answer_idx_ge_three dgram h1
  by_cases h : answer_idx dgram = 3
  · right
    have hle := answer_idx_le dgram
    have hlen := question_echo_length dgram h1
    rw [h]
    have ht : ((question_echo dgram).take 3).length = 3 := by
      rw [List.length_take, hlen]
      omega
    rw [List.getElem?_append_right (by omega), ht]
    rfl
  · left
    obtain ⟨_, _, _, q3, _⟩ := question_echo_header dgram h1
    rw [answer_getElem?_lt dgram ip 3 h1 (by omega), q3]

/-- C13. The test of line 135 fails for every value of `data[1]`, so no pass takes the
NOTIMP branch: for a request of 12 to 79 bytes, under every configuration, byte 3 of the
response is not 0x04 and its low four bits, the RCODE, are 0 or 5. -/
theorem notimp_branch_is_dead (cfg : dns_server_config_t) (ip : ip4_addr_t)
    (d r l : Nat → Nat) (dgram : List Nat)
    (h12 : 12 ≤ dgram.length) (h79 : dgram.length ≤ 79) :
    (∀ data1 : Nat, ¬ (data1 &&& STANDARD_QUERY) > 0) ∧
      ∃ sent byte3, receive_cycle cfg ip (frame d r l) dgram = .ok (some sent) ∧
        sent[3]? = some byte3 ∧ byte3 ≠ 0x04 ∧ (byte3 % 16 = 0 ∨ byte3 % 16 = 5) := by
  refine ⟨fun data1 => by simp [STANDARD_QUERY], ?_⟩
  rcases matches_or_differs cfg d r l dgram h12 h79 with hm | hm
  · rcases answer_byte_three dgram ip h12 with h | h
    · exact ⟨_, 0x00, cycle_answered cfg ip d r l dgram h12 h79 hm, h, by decide, Or.inl (by decide)⟩
    · exact ⟨_, 0xC0, cycle_answered cfg ip d r l dgram h12 h79 hm, h, by decide, Or.inl (by decide)⟩
  · obtain ⟨_, _, _, _, q3, _⟩ := refusal_header dgram 5 h12
    exact ⟨_, 0x05, cycle_refused cfg ip d r l dgram h12 h79 hm, q3, by decide, Or.inr (by decide)⟩

/-- C13 (witness): a request whose byte 1 has every bit set. -/
theorem notimp_branch_is_dead_witness :
    (∀ data1 : Nat, ¬ (data1 &&& STANDARD_QUERY) > 0) ∧
      ∃ sent byte3, receive_cycle ⟨portal_local_dot, false⟩ ip_10_0_0_1 stale_frame
          [0x12, 0xFF, 0x79, 0x00, 0x00, 0x01, 0x00, 0x00, 0x00, 0x00, 0x00, 0x00, 0x00,
            0x00, 0x01, 0x00, 0x01] = .ok (some sent) ∧
        sent[3]? = some byte3 ∧ byte3 ≠ 0x04 ∧ (byte3 % 16 = 0 ∨ byte3 % 16 = 5) :=
  notimp_branch_is_dead ⟨portal_local_dot, false⟩ ip_10_0_0_1
    (fun _ => 0xAA) (fun _ => 0xBB) (fun _ => 0xCC)
    [0x12, 0xFF, 0x79, 0x00, 0x00, 0x01, 0x00, 0x00, 0x00, 0x00, 0x00, 0x00, 0x00,
      0x00, 0x01, 0x00, 0x01] (by decide) (by decide)

/-- The first `n` bytes of a positive answer, for `n` up to `idx`, are those of the
echoed question. -/
theorem answer_take (dgram : List Nat) (ip : ip4_addr_t) (n : Nat)
    (h1 : 12 ≤ dgram.length) (hn : n ≤ answer_idx dgram) :
    ((question_echo dgram).take (answer_idx dgram) ++ answer_record ip).take n =
      (question_echo dgram).take n := by
  have hle := answer_idx_le dgram
  have hlen := question_echo_length dgram h1
  have ht : ((question_echo dgram).take (answer_idx dgram)).length = answer_idx dgram := by
    rw [List.length_take, hlen]
    omega
  rw [List.take_append_of_le_length (by omega), List.take_take, Nat.min_eq_left hn]

/-- The twelve header bytes of the echoed question. -/
theorem question_echo_take_twelve (dgram : List Nat) :
    (question_echo dgram).take 12 =
      [dgram.getD 0 0, dgram.getD 1 0, 0x84 ||| (dgram.getD 2 0 &&& 0x01), 0x00,
        dgram.getD 4 0, dgram.getD 5 0, dgram.getD 4 0, dgram.getD 5 0,
        0x00, 0x00, 0x00, 0x00] := by
  simp only [question_echo, Nat.and_comm 1]
  rw [List.take_append_eq_append_take, List.take_of_length_le (by simp)]
  simp

/-- The bytes of the echoed question from index 12 on are those of the request. -/
theorem question_echo_drop_twelve (dgram : List Nat) :
    (question_echo dgram).drop 12 = dgram.drop 12 := by
  simp [question_echo]

/-- C14. For a request of 23 to 79 bytes whose decoded name matches the hostname: when
request bytes L-11, L-10, L-9 are not 00 00 29 the response has L + 16 bytes and its bytes
[12, L) are the request's bytes [12, L); when they are, the response has L + 5 bytes. -/
theorem answer_length_and_echo (cfg : dns_server_config_t) (ip : ip4_addr_t)
    (d r l : Nat → Nat) (dgram : List Nat)
    (h23 : 23 ≤ dgram.length) (h79 : dgram.length ≤ 79)
    (hm : name_matches cfg (frame d r l) dgram = true) :
    ∃ sent, receive_cycle cfg ip (frame d r l) dgram = .ok (some sent) ∧
      (¬ (dgram[dgram.length - 11]? = some 0x00 ∧ dgram[dgram.length - 10]? = some 0x00 ∧
          dgram[dgram.length - 9]? = some 0x29) →
        sent.length = dgram.length + 16 ∧
          (sent.drop 12).take (dgram.length - 12) = dgram.drop 12) ∧
      ((dgram[dgram.length - 11]? = some 0x00 ∧ dgram[dgram.length - 10]? = some 0x00 ∧
          dgram[dgram.length - 9]? = some 0x29) →
        sent.length = dgram.length + 5) := by
  have h12 : 12 ≤ dgram.length := by omega
  obtain ⟨hlen, _⟩ := answer_tail dgram ip h12
  have hqlen := question_echo_length dgram h12
  have e11 := some_getD dgram (dgram.length - 11) (by omega)
  have e10 := some_getD dgram (dgram.length - 10) (by omega)
  have e9 := some_getD dgram (dgram.length - 9) (by omega)
  refine ⟨_, cycle_answered cfg ip d r l dgram h12 h79 hm, ?_, ?_⟩
  · intro hopt
    have hidx : answer_idx dgram = dgram.length := by
      rw [answer_idx_of_long dgram h23]
      rw [if_neg]
      rintro ⟨a, b, c⟩
      apply hopt
      rw [← e11, ← e10, ← e9, a, b, c]
      exact ⟨rfl, rfl, rfl⟩
    refine ⟨by omega, ?_⟩
    have hE : (question_echo dgram).take dgram.length = question_echo dgram :=
      List.take_of_length_le (by omega)
    have hD : (dgram.drop 12).length = dgram.length - 12 := List.length_drop 12 dgram
    rw [hidx, hE, List.drop_append_of_le_length (by omega), question_echo_drop_twelve,
      List.take_append_of_le_length (by omega), List.take_of_length_le (by omega)]
  · intro hopt
    have hidx : answer_idx dgram = dgram.length - 11 := by
      rw [answer_idx_of_long dgram h23]
      simp only [List.getD_eq_getElem?_getD, hopt.1, hopt.2.1, hopt.2.2, Option.getD_some,
        and_self, if_true]
    omega

/-- C14 (witness): the 41-byte `portal.local` query that carries the OPT record. -/
theorem answer_length_and_echo_witness :
    ∃ sent, receive_cycle ⟨portal_local_dot, false⟩ ip_10_0_0_1 stale_frame portal_query_opt =
        .ok (some sent) ∧
      (¬ (portal_query_opt[portal_query_opt.length - 11]? = some 0x00 ∧
          portal_query_opt[portal_query_opt.length - 10]? = some 0x00 ∧
          portal_query_opt[portal_query_opt.length - 9]? = some 0x29) →
        sent.length = portal_query_opt.length + 16 ∧
          (sent.drop 12).take (portal_query_opt.length - 12) = portal_query_opt.drop 12) ∧
      ((portal_query_opt[portal_query_opt.length - 11]? = some 0x00 ∧
          portal_query_opt[portal_query_opt.length - 10]? = some 0x00 ∧
          portal_query_opt[portal_query_opt.length - 9]? = some 0x29) →
        sent.length = portal_query_opt.length + 5) :=
  answer_length_and_echo ⟨portal_local_dot, false⟩ ip_10_0_0_1
    (fun _ => 0xAA) (fun _ => 0xBB) (fun _ => 0xCC) portal_query_opt
    (by decide) (by decide) (by decide)

/-- C17. For a request of 23 to 79 bytes that is answered positively the record is
written at `idx = L` or `idx = L - 11`, so the response has L + 16 or L + 5 bytes, and its
twelve header bytes are: request bytes 0-1, 0x84 OR (request byte 2 AND 1), 0x00, request
bytes 4-5, request bytes 4-5 again, 00 00, 00 00. -/
theorem answer_keeps_header (cfg : dns_server_config_t) (ip : ip4_addr_t)
    (d r l : Nat → Nat) (dgram : List Nat)
    (h23 : 23 ≤ dgram.length) (h79 : dgram.length ≤ 79)
    (hm : name_matches cfg (frame d r l) dgram = true) :
    ∃ sent, receive_cycle cfg ip (frame d r l) dgram = .ok (some sent) ∧
      (sent.length = dgram.length + 16 ∨ sent.length = dgram.length - 11 + 16) ∧
      12 ≤ sent.length - 16 ∧
      sent.take 12 =
        [dgram.getD 0 0, dgram.getD 1 0, 0x84 ||| (dgram.getD 2 0 &&& 0x01), 0x00,
          dgram.getD 4 0, dgram.getD 5 0, dgram.getD 4 0, dgram.getD 5 0,
          0x00, 0x00, 0x00, 0x00] := by
  have h12 : 12 ≤ dgram.length := by omega
  obtain ⟨hlen, _⟩ := answer_tail dgram ip h12
  have hidx : answer_idx dgram = dgram.length ∨ answer_idx dgram = dgram.length - 11 := by
    rcases answer_idx_cases dgram with h | ⟨h, _⟩
    · exact Or.inl h
    · exact Or.inr h
  refine ⟨_, cycle_answered cfg ip d r l dgram h12 h79 hm, ?_, ?_, ?_⟩
  · rcases hidx with h | h <;> omega
  · rcases hidx with h | h <;> omega
  · rw [answer_take dgram ip 12 h12 (by rcases hidx with h | h <;> omega),
      question_echo_take_twelve]

/-- C17 (witness): the `portal.local` query with hostname `portal.local.`. -/
theorem answer_keeps_header_witness :
    ∃ sent, receive_cycle ⟨portal_local_dot, false⟩ ip_10_0_0_1 stale_frame portal_query =
        .ok (some sent) ∧
      (sent.length = portal_query.length + 16 ∨ sent.length = portal_query.length - 11 + 16) ∧
      12 ≤ sent.length - 16 ∧
      sent.take 12 =
        [portal_query.getD 0 0, portal_query.getD 1 0,
          0x84 ||| (portal_query.getD 2 0 &&& 0x01), 0x00,
          portal_query.getD 4 0, portal_query.getD 5 0,
          portal_query.getD 4 0, portal_query.getD 5 0,
          0x00, 0x00, 0x00, 0x00] :=
  answer_keeps_header ⟨portal_local_dot, false⟩ ip_10_0_0_1
    (fun _ => 0xAA) (fun _ => 0xBB) (fun _ => 0xCC) portal_query
    (by decide) (by decide) (by decide)

theorem getD_copied (D : Nat → Nat) (i n : Nat) (rest : List Nat) (k : Nat) :
    ((List.range n).map (fun k => D (i + 1 + k)) ++ 0x2E :: rest).getD k 0 =
      if k < n then D (i + 1 + k) else if k = n then 0x2E else rest.getD (k - (n + 1)) 0 := by
  by_cases h1 : k < n
  · rw [List.getD_append _ _ _ _ (by simpa using h1), if_pos h1,
      List.getD_eq_getElem _ _ (by simpa using h1)]
    simp
  · rw [List.getD_append_right _ _ _ _ (by simpa using h1), if_neg h1]
    simp only [List.length_map, List.length_range]
    by_cases h2 : k = n
    · simp [h2]
    · rw [if_neg h2]
      obtain ⟨m, hm⟩ : ∃ m, k - n = m + 1 := ⟨k - n - 1, by omega⟩
      rw [hm, show k - (n + 1) = m by omega]
      simp

/-- The walk completes and writes exactly the bytes of `walk_name` from `buf_pos` on. -/
theorem walk_eq (data : Buf) (L : Nat) (hd : L < data.cap) :
    ∀ (fuel : Nat) (w : Walk), w.buf_pos + 12 = w.i → w.i ≤ L + 1 →
      L + 2 ≤ 2 * fuel + w.i → L ≤ w.label_buf.cap + 11 →
      ∃ w', walk data L fuel w = .ok w' ∧ w'.label_buf.cap = w.label_buf.cap ∧
        w'.buf_pos + 12 = w'.i ∧ w'.i ≤ L + 1 ∧
        w'.buf_pos = w.buf_pos + (walk_name data.cell L fuel w.i).length ∧
        ∀ j, w'.label_buf.cell j =
          if w.buf_pos ≤ j ∧ j < w'.buf_pos then
            (walk_name data.cell L fuel w.i).getD (j - w.buf_pos) 0
          else w.label_buf.cell j := by
  intro fuel
  induction fuel with
  | zero => intro w _ h3 h4; omega
  | succ n ih =>
    intro w hb hi hf hc
    unfold walk walk_name
    by_cases hlt : w.i < L
    · have hld : load data w.i = .ok (data.cell w.i) := by
        simp [load]; omega
      simp only [hlt, if_true, hld, bind, Except.bind, pure, Except.pure]
      by_cases hz : data.cell w.i = 0
      · simp only [hz, if_true]
        exact ⟨w, rfl, rfl, hb, hi, by simp, fun j => by rw [if_neg (by omega)]⟩
      · simp only [hz, if_false]
        by_cases hm : L < data.cell w.i + w.i
        · simp only [hm, if_true]
          exact ⟨_, rfl, rfl, hb, hi, by simp, fun j => by dsimp only; rw [if_neg (by omega)]⟩
        · simp only [hm, if_false]
          have hmc : memcpy w.label_buf w.buf_pos data (w.i + 1) (data.cell w.i) =
              .ok { w.label_buf with
                    cell := fun j => if w.buf_pos ≤ j ∧ j < w.buf_pos + data.cell w.i
                      then data.cell (w.i + 1 + (j - w.buf_pos)) else w.label_buf.cell j } := by
            have : w.buf_pos + data.cell w.i ≤ w.label_buf.cap ∧
                w.i + 1 + data.cell w.i ≤ data.cap := by omega
            simp only [memcpy, this, and_self, if_true]
          simp only [hmc, store, (by omega : w.buf_pos + data.cell w.i < w.label_buf.cap), if_true]
          obtain ⟨w', hw, hcap, hb', hi', hbp, hcell⟩ := ih
            { i := w.i + (data.cell w.i + 1)
              buf_pos := w.buf_pos + data.cell w.i + 1
              label_count := w.label_count + 1
              label_buf :=
                { cap := w.label_buf.cap
                  cell := fun j => if j = w.buf_pos + data.cell w.i then 0x2E
                    else if w.buf_pos ≤ j ∧ j < w.buf_pos + data.cell w.i
                      then data.cell (w.i + 1 + (j - w.buf_pos)) else w.label_buf.cell j } }
            (by show w.buf_pos + data.cell w.i + 1 + 12 = w.i + (data.cell w.i + 1); omega)
            (by show w.i + (data.cell w.i + 1) ≤ L + 1; omega)
            (by show L + 2 ≤ 2 * n + (w.i + (data.cell w.i + 1)); omega)
            hc
          dsimp only at hw hcap hb' hi' hbp hcell
          refine ⟨w', hw, hcap, hb', hi', ?_, ?_⟩
          · rw [hbp]
            simp only [List.length_append, List.length_map, List.length_range, List.length_cons]
            omega
          · intro j
            rw [hcell j, getD_copied, hbp]
            split_ifs <;> first | rfl | omega | (congr 1; omega)
    · simp only [hlt, if_false, pure, Except.pure]
      exact ⟨w, rfl, rfl, hb, hi, by simp, fun j => by rw [if_neg (by omega)]⟩

/-- The walk reads no cell beyond index `L`. -/
theorem walk_name_congr (D D' : Nat → Nat) (L : Nat) (h : ∀ j, j ≤ L → D j = D' j) :
    ∀ (fuel i : Nat), walk_name D L fuel i = walk_name D' L fuel i := by
  intro fuel
  induction fuel with
  | zero => intro i; rfl
  | succ n ih =>
    intro i
    unfold walk_name
    by_cases hlt : i < L
    · simp only [hlt, if_true, ← h i (by omega)]
      by_cases hz : D i = 0
      · simp only [hz, if_true]
      · simp only [hz, if_false]
        by_cases hm : L < D i + i
        · simp only [hm, if_true]
        · simp only [hm, if_false, ih]
          congr 1
          apply List.map_congr_left
          intro k hk
          have : k < D i := by simpa using hk
          exact h _ (by omega)
    · simp only [hlt, if_false]

theorem rcvd_eq_getD (d : Nat → Nat) (dgram : List Nat) (j : Nat) (hj : j ≤ dgram.length) :
    rcvd d dgram j = dgram.getD j 0 := by
  by_cases h : j < dgram.length
  · exact rcvd_lt d dgram j h
  · have e : j = dgram.length := by omega
    rw [e, rcvd_length]
    simp

theorem decoded_name_length (dgram : List Nat) : (decoded_name dgram).length ≤ 62 := by
  simp [decoded_name]

/-- Lines 145-170 leave the decoded name, NUL-terminated, at the start of `label_buf`,
for every capacity of `label_buf` of at least `L - 10`. -/
theorem decode_name_eq (d l : Nat → Nat) (dgram : List Nat) (cl : Nat)
    (h1 : 11 ≤ dgram.length) (h2 : dgram.length ≤ 79) (hcl : dgram.length ≤ cl + 10) :
    ∃ lb, decode_name ⟨80, rcvd d dgram⟩ dgram.length ⟨cl, l⟩ = .ok lb ∧ lb.cap = cl ∧
      (∀ j, j < (decoded_name dgram).length → lb.cell j = (decoded_name dgram).getD j 0) ∧
      lb.cell (decoded_name dgram).length = 0 := by
  obtain ⟨w, hw, hc, hb, hi, hbp, hcell⟩ := walk_eq ⟨80, rcvd d dgram⟩ dgram.length
    (by show dgram.length < 80; omega) (dgram.length + 1)
    { i := 12, buf_pos := 0, label_count := 0, label_buf := ⟨cl, l⟩ } rfl
    (by show 12 ≤ dgram.length + 1; omega)
    (by show dgram.length + 2 ≤ 2 * (dgram.length + 1) + 12; omega)
    (by show dgram.length ≤ cl + 11; omega)
  dsimp only at hc hbp hcell
  have hn : walk_name (rcvd d dgram) dgram.length (dgram.length + 1) 12 =
      walk_name (fun j => dgram.getD j 0) dgram.length (dgram.length + 1) 12 :=
    walk_name_congr _ _ _ (fun j hj => rcvd_eq_getD d dgram j hj) _ _
  rw [hn] at hbp hcell
  rw [Nat.zero_add] at hbp
  have hlen : (decoded_name dgram).length = if w.buf_pos > 62 then 62 else w.buf_pos := by
    simp only [decoded_name, List.length_take, ← hbp]
    split_ifs <;> omega
  have hst : (if w.buf_pos > 62 then 62 else w.buf_pos) < w.label_buf.cap := by
    rw [hc]
    split_ifs <;> omega
  simp only [decode_name, hw, bind, Except.bind, store, hst, if_true]
  refine ⟨_, rfl, hc, ?_, ?_⟩
  · intro j hj
    dsimp only
    rw [hlen] at hj
    rw [if_neg (by omega), hcell j, if_pos (by split_ifs at hj <;> omega)]
    simp only [decoded_name, Nat.sub_zero, List.getD_eq_getElem?_getD]
    rw [List.getElem?_take_of_lt (by split_ifs at hj <;> omega)]
  · dsimp only
    rw [hlen, if_pos rfl]

theorem decoded_cap_eq (d l : Nat → Nat) (rbuf : Buf) (dgram : List Nat) (cl : Nat)
    (h2 : dgram.length ≤ 79) :
    decoded ⟨⟨80, d⟩, rbuf, ⟨cl, l⟩⟩ dgram =
      decode_name ⟨80, rcvd d dgram⟩ dgram.length ⟨cl, l⟩ := by
  unfold decoded
  simp only [recvfrom_eq d dgram h2, store_length_eq d dgram h2, bind, Except.bind]

/-- The result of `strcmp` depends on the cells only up to the terminator. -/
theorem strcmp_congr (c1 c2 : Nat → Nat) (n : Nat) (hz : c1 n = 0) :
    ∀ (host : List Nat) (k : Nat), k ≤ n → (∀ j, k ≤ j → j ≤ n → c1 j = c2 j) →
      strcmp host c1 k = strcmp host c2 k := by
  intro host
  induction host with
  | nil => intro k hk h; simp only [strcmp, h k (Nat.le_refl k) hk]
  | cons c cs ih =>
    intro k hk h
    have hkk := h k (Nat.le_refl k) hk
    unfold strcmp
    rw [← hkk]
    by_cases hc0 : c = 0
    · simp only [hc0, if_true]
    · simp only [hc0, if_false]
      by_cases hc : c = c1 k
      · simp only [hc, if_true]
        have hlt : k < n := by
          rcases Nat.lt_or_ge k n with h' | h'
          · exact h'
          · exfalso
            have : k = n := by omega
            rw [this, hz] at hc
            exact hc0 hc
        exact ih (k + 1) hlt (fun j hj1 hj2 => h j (by omega) hj2)
      · simp only [hc, if_false]

/-- The test of line 172 in terms of the closed form of the decoded name. -/
theorem strcmp_decoded (host : List Nat) (d l : Nat → Nat) (dgram : List Nat) (cl : Nat)
    (h1 : 11 ≤ dgram.length) (h2 : dgram.length ≤ 79) (hcl : dgram.length ≤ cl + 10) :
    ∃ lb, decode_name ⟨80, rcvd d dgram⟩ dgram.length ⟨cl, l⟩ = .ok lb ∧ lb.cap = cl ∧
      strcmp host lb.cell 0 = strcmp host (fun j => (decoded_name dgram).getD j 0) 0 := by
  obtain ⟨lb, hlb, hcap, hcell, hnul⟩ := decode_name_eq d l dgram cl h1 h2 hcl
  refine ⟨lb, hlb, hcap, ?_⟩
  apply strcmp_congr lb.cell _ (decoded_name dgram).length hnul host 0 (Nat.zero_le _)
  intro j _ hj
  by_cases hlt : j < (decoded_name dgram).length
  · exact hcell j hlt
  · have e : j = (decoded_name dgram).length := by omega
    rw [e, hnul]
    simp

theorem name_matches_eq (cfg : dns_server_config_t) (d r l : Nat → Nat) (dgram : List Nat)
    (h1 : 11 ≤ dgram.length) (h2 : dgram.length ≤ 79) :
    name_matches cfg (frame d r l) dgram =
      (strcmp cfg.hostname (fun j => (decoded_name dgram).getD j 0) 0 == 0) := by
  obtain ⟨lb, hlb, _, hs⟩ := strcmp_decoded cfg.hostname d l dgram 128 h1 h2 (by omega)
  unfold name_matches
  rw [decoded_eq d r l dgram h2, hlb]
  simp only [hs]

theorem name_differs_eq (cfg : dns_server_config_t) (d r l : Nat → Nat) (dgram : List Nat)
    (h1 : 11 ≤ dgram.length) (h2 : dgram.length ≤ 79) :
    name_differs cfg (frame d r l) dgram =
      (strcmp cfg.hostname (fun j => (decoded_name dgram).getD j 0) 0 != 0) := by
  obtain ⟨lb, hlb, _, hs⟩ := strcmp_decoded cfg.hostname d l dgram 128 h1 h2 (by omega)
  unfold name_differs
  rw [decoded_eq d r l dgram h2, hlb]
  simp only [hs]

/-- C12. For a request of 12 to 79 bytes the bytes sent do not depend on what `data`
(beyond the received bytes), `response` and `label_buf` held before the pass: two passes
on the same datagram, hostname and address, started from any two frames, both complete
and send the same bytes. -/
theorem no_hidden_state (cfg : dns_server_config_t) (ip : ip4_addr_t)
    (d r l d' r' l' : Nat → Nat) (dgram : List Nat)
    (h12 : 12 ≤ dgram.length) (h79 : dgram.length ≤ 79) :
    ∃ sent, receive_cycle cfg ip (frame d r l) dgram = .ok (some sent) ∧
      receive_cycle cfg ip (frame d' r' l') dgram = .ok (some sent) := by
  rcases matches_or_differs cfg d r l dgram h12 h79 with hm | hm
  · have hm' : name_matches cfg (frame d' r' l') dgram = true := by
      rw [name_matches_eq cfg d' r' l' dgram (by omega) h79,
        ← name_matches_eq cfg d r l dgram (by omega) h79]
      exact hm
    exact ⟨_, cycle_answered cfg ip d r l dgram h12 h79 hm,
      cycle_answered cfg ip d' r' l' dgram h12 h79 hm'⟩
  · have hm' : name_differs cfg (frame d' r' l') dgram = true := by
      rw [name_differs_eq cfg d' r' l' dgram (by omega) h79,
        ← name_differs_eq cfg d r l dgram (by omega) h79]
      exact hm
    exact ⟨_, cycle_refused cfg ip d r l dgram h12 h79 hm,
      cycle_refused cfg ip d' r' l' dgram h12 h79 hm'⟩

/-- C12 (witness): the `portal.local` query from a frame of leftovers and from a frame of
zeros. -/
theorem no_hidden_state_witness :
    ∃ sent, receive_cycle ⟨portal_local_dot, false⟩ ip_10_0_0_1 stale_frame portal_query =
        .ok (some sent) ∧
      receive_cycle ⟨portal_local_dot, false⟩ ip_10_0_0_1
        (frame (fun _ => 0) (fun _ => 0) (fun _ => 0)) portal_query = .ok (some sent) :=
  no_hidden_state ⟨portal_local_dot, false⟩ ip_10_0_0_1
    (fun _ => 0xAA) (fun _ => 0xBB) (fun _ => 0xCC) (fun _ => 0) (fun _ => 0) (fun _ => 0)
    portal_query (by decide) (by decide)

theorem wire_name_cons (label : List Nat) (labels : List (List Nat)) :
    wire_name (label :: labels) = label.length :: (label ++ wire_name labels) := by
  simp [wire_name]

theorem getD_past_front (pre tail : List Nat) (k : Nat) :
    (pre ++ tail).getD (pre.length + k) 0 = tail.getD k 0 := by
  rw [List.getD_append_right _ _ _ _ (by omega)]
  congr 1
  omega

/-- On a well-formed name the walk appends every label followed by the separator. -/
theorem walk_name_wire (rest : List Nat) (L : Nat) :
    ∀ (labels : List (List Nat)) (pre : List Nat) (fuel : Nat), labels.length < fuel →
      (∀ label ∈ labels, label ≠ []) → pre.length + (wire_name labels).length ≤ L →
      walk_name (fun j => (pre ++ (wire_name labels ++ rest)).getD j 0) L fuel pre.length =
        labels.flatMap (fun label => label ++ [0x2E]) := by
  intro labels
  induction labels with
  | nil =>
    intro pre fuel hf _ hL
    obtain ⟨f, rfl⟩ : ∃ f, fuel = f + 1 := ⟨fuel - 1, by simp at hf; omega⟩
    have hlt : pre.length < L := by simp [wire_name] at hL; omega
    have h0 : (pre ++ (wire_name [] ++ rest)).getD pre.length 0 = 0 := by
      have := getD_past_front pre (wire_name [] ++ rest) 0
      rw [Nat.add_zero] at this
      rw [this]
      simp [wire_name]
    unfold walk_name
    simp only [hlt, if_true, h0, List.flatMap_nil]
  | cons label labels ih =>
    intro pre fuel hf hne hL
    obtain ⟨f, rfl⟩ : ∃ f, fuel = f + 1 := ⟨fuel - 1, by simp at hf; omega⟩
    have hlab : label ≠ [] := hne label (List.mem_cons_self _ _)
    have hpos : 0 < label.length := List.length_pos.mpr hlab
    rw [wire_name_cons] at hL
    simp only [List.length_cons, List.length_append] at hL
    have hlt : pre.length < L := by omega
    have hD : ∀ k, (pre ++ (wire_name (label :: labels) ++ rest)).getD (pre.length + k) 0 =
        (label.length :: (label ++ (wire_name labels ++ rest))).getD k 0 := by
      intro k
      rw [getD_past_front, wire_name_cons]
      simp
    have h0 : (pre ++ (wire_name (label :: labels) ++ rest)).getD pre.length 0 = label.length := by
      have := hD 0
      rw [Nat.add_zero] at this
      rw [this]
      simp
    have hcopy : (List.range label.length).map
        (fun k => (pre ++ (wire_name (label :: labels) ++ rest)).getD (pre.length + 1 + k) 0)
        = label := by
      apply map_range_eq
      · rfl
      · intro k hk
        rw [Nat.add_assoc, hD (1 + k), Nat.add_comm 1 k]
        rw [List.getD_cons_succ, List.getD_append _ _ _ _ hk]
    have hrec := ih (pre ++ label.length :: label) f (by simp at hf; omega)
      (fun x hx => hne x (List.mem_cons_of_mem _ hx))
      (by simp only [List.length_append, List.length_cons]; omega)
    have hpre : (pre ++ label.length :: label) ++ (wire_name labels ++ rest) =
        pre ++ (wire_name (label :: labels) ++ rest) := by
      rw [wire_name_cons]
      simp
    rw [hpre] at hrec
    have hlen : (pre ++ label.length :: label).length = pre.length + (label.length + 1) := by
      simp
    rw [hlen] at hrec
    unfold walk_name
    simp only [hlt, if_true, h0, hcopy, hrec, List.flatMap_cons, List.append_assoc,
      List.singleton_append]
    rw [if_neg (by omega), if_neg (by omega)]

theorem wire_name_length (labels : List (List Nat)) :
    labels.length < (wire_name labels).length := by
  induction labels with
  | nil => simp [wire_name]
  | cons label labels ih =>
    rw [wire_name_cons]
    simp only [List.length_cons, List.length_append]
    omega

/-- The closed form of the decoded name of a well-formed question. -/
theorem decoded_name_wire (dgram header rest : List Nat) (labels : List (List Nat))
    (hshape : dgram = header ++ wire_name labels ++ rest) (hheader : header.length = 12)
    (hne : ∀ label ∈ labels, label ≠ []) :
    decoded_name dgram = (labels.flatMap (fun label => label ++ [0x2E])).take 62 := by
  have hlen : dgram.length = 12 + (wire_name labels).length + rest.length := by
    rw [hshape]
    simp only [List.length_append, hheader]
  have hw := wire_name_length labels
  have h := walk_name_wire rest dgram.length labels header (dgram.length + 1) (by omega) hne
    (by omega)
  rw [hheader, ← List.append_assoc, ← hshape] at h
  rw [decoded_name, h]

/-- C15. For a request of 12 to 79 bytes the pass reaches line 172 with a NUL among the
first 63 cells of `label_buf`, so the decoded name has at most 62 bytes; and when the bytes
from offset 12 on are a well-formed name (non-empty labels, each with its length byte, then
a zero byte, all inside the datagram) the cells of `label_buf` hold every label followed
by one separator, cut to the first 62 bytes, and then the NUL. -/
theorem name_decoding (d r l : Nat → Nat) (dgram : List Nat)
    (h12 : 12 ≤ dgram.length) (h79 : dgram.length ≤ 79) :
    ∃ lb, decoded (frame d r l) dgram = .ok lb ∧
      (∃ k, k ≤ 62 ∧ lb.cell k = 0x00) ∧
      ∀ (header rest : List Nat) (labels : List (List Nat)),
        dgram = header ++ wire_name labels ++ rest → header.length = 12 →
        (∀ label ∈ labels, label ≠ []) →
        (List.range (min (labels.flatMap (fun label => label ++ [0x2E])).length 62 + 1)).map
            lb.cell =
          (labels.flatMap (fun label => label ++ [0x2E])).take 62 ++ [0x00] := by
  obtain ⟨lb, hlb, _, hcell, hnul⟩ := decode_name_eq d l dgram 128 (by omega) h79 (by omega)
  refine ⟨lb, by rw [decoded_eq d r l dgram h79, hlb], ⟨_, decoded_name_length dgram, hnul⟩, ?_⟩
  intro header rest labels hshape hheader hne
  have hdn := decoded_name_wire dgram header rest labels hshape hheader hne
  rw [hdn] at hcell hnul
  have hlen : ((labels.flatMap (fun label => label ++ [0x2E])).take 62).length =
      min (labels.flatMap (fun label => label ++ [0x2E])).length 62 := by
    rw [List.length_take, Nat.min_comm]
  rw [hlen] at hcell hnul
  apply map_range_eq
  · rw [List.length_append, hlen]
    rfl
  · intro j hj
    by_cases hlt : j < min (labels.flatMap (fun label => label ++ [0x2E])).length 62
    · rw [hcell j hlt, List.getD_append _ _ _ _ (by rw [hlen]; exact hlt)]
    · have e : j = min (labels.flatMap (fun label => label ++ [0x2E])).length 62 := by omega
      rw [List.getD_append_right _ _ _ _ (by rw [hlen]; omega), hlen, e, hnul]
      simp

/-- C15 (witness): for the `portal.local` query the first 14 cells of `label_buf` hold
`portal.local.` and the NUL. -/
theorem name_decoding_witness :
    ∃ lb, decoded stale_frame portal_query = .ok lb ∧
      (∃ k, k ≤ 62 ∧ lb.cell k = 0x00) ∧
      (List.range 14).map lb.cell =
        [0x70, 0x6F, 0x72, 0x74, 0x61, 0x6C, 0x2E, 0x6C, 0x6F, 0x63, 0x61, 0x6C, 0x2E, 0x00] := by
  obtain ⟨lb, h1, h2, h3⟩ := name_decoding (fun _ => 0xAA) (fun _ => 0xBB) (fun _ => 0xCC)
    portal_query (by decide) (by decide)
  exact ⟨lb, h1, h2,
    h3 [0x12, 0x34, 0x01, 0x00, 0x00, 0x01, 0x00, 0x00, 0x00, 0x00, 0x00, 0x00]
      [0x00, 0x01, 0x00, 0x01]
      [[0x70, 0x6F, 0x72, 0x74, 0x61, 0x6C], [0x6C, 0x6F, 0x63, 0x61, 0x6C]]
      (by decide) (by decide) (by decide)⟩

/-- When the cells hold a name without NUL bytes and then the terminator, `strcmp`
returns zero only for a hostname with exactly these characters. -/
theorem strcmp_eq_zero (c : Nat → Nat) :
    ∀ (host name : List Nat) (k : Nat), (∀ j, j < name.length → c (k + j) = name.getD j 0) →
      c (k + name.length) = 0 → (∀ x ∈ name, x ≠ 0) → strcmp host c k = 0 →
      c_string host = name := by
  intro host
  induction host with
  | nil =>
    intro name k hc hz _ hs
    simp only [strcmp] at hs
    have hk : c k = 0 := by omega
    cases name with
    | nil => rfl
    | cons x xs =>
      exfalso
      have h0 := hc 0 (by simp)
      simp only [Nat.add_zero, List.getD_cons_zero] at h0
      rename_i hnz
      exact hnz x (List.mem_cons_self _ _) (by omega)
  | cons h hs ih =>
    intro name k hc hz hnz hs0
    unfold strcmp at hs0
    by_cases h0 : h = 0
    · simp only [h0, if_true] at hs0
      have hk : c k = 0 := by omega
      cases name with
      | nil => simp [c_string, h0]
      | cons x xs =>
        exfalso
        have hx := hc 0 (by simp)
        simp only [Nat.add_zero, List.getD_cons_zero] at hx
        exact hnz x (List.mem_cons_self _ _) (by omega)
    · simp only [h0, if_false] at hs0
      by_cases hck : h = c k
      · simp only [hck, if_true] at hs0
        cases name with
        | nil =>
          exfalso
          simp only [List.length_nil, Nat.add_zero] at hz
          omega
        | cons x xs =>
          have hx := hc 0 (by simp)
          simp only [Nat.add_zero, List.getD_cons_zero] at hx
          have hrec := ih xs (k + 1)
            (fun j hj => by
              have := hc (j + 1) (by simpa using hj)
              rw [List.getD_cons_succ] at this
              rw [← this]
              congr 1
              omega)
            (by
              simp only [List.length_cons] at hz
              rw [← hz]
              congr 1
              omega)
            (fun y hy => hnz y (List.mem_cons_of_mem _ hy)) hs0
          have hne : (h != 0) = true := by simpa using h0
          simp only [c_string, List.takeWhile_cons, hne, if_true]
          rw [show List.takeWhile (fun c => c != 0) hs = xs from hrec]
          congr 1
          omega
      · simp only [hck, if_false] at hs0
        omega

theorem dotted_getLast? (labels : List (List Nat)) (h : labels ≠ []) :
    (labels.flatMap (fun label => label ++ [0x2E])).getLast? = some 0x2E := by
  rcases List.eq_nil_or_concat labels with h' | ⟨init, last, rfl⟩
  · exact absurd h' h
  · simp [List.flatMap_append]

theorem dotted_ne_zero (labels : List (List Nat))
    (hnz : ∀ label ∈ labels, ∀ b ∈ label, b ≠ 0) :
    ∀ x ∈ labels.flatMap (fun label => label ++ [0x2E]), x ≠ 0 := by
  intro x hx
  simp only [List.mem_flatMap, List.mem_append, List.mem_singleton] at hx
  obtain ⟨label, hl, hx | hx⟩ := hx
  · exact hnz label hl x hx
  · omega

/-- C16. For a request of 12 to 79 bytes whose question name is well-formed, has at least
one label, no zero byte inside a label and a decoded length of at most 62: the decoded
name is the dotted name, it ends with the separator, and under every configuration whose
hostname does not end with the separator the request is answered REFUSED: L bytes,
byte 3 = 0x05, ANCOUNT 00 00, no address record. -/
theorem trailing_separator_is_refused (cfg : dns_server_config_t) (ip : ip4_addr_t)
    (d r l : Nat → Nat) (dgram header rest : List Nat) (labels : List (List Nat))
    (hshape : dgram = header ++ wire_name labels ++ rest) (hheader : header.length = 12)
    (h12 : 12 ≤ dgram.length) (h79 : dgram.length ≤ 79)
    (hsome : labels ≠ []) (hne : ∀ label ∈ labels, label ≠ [])
    (hnz : ∀ label ∈ labels, ∀ b ∈ label, b ≠ 0x00)
    (h62 : (labels.flatMap (fun label => label ++ [0x2E])).length ≤ 62)
    (hhost : (c_string cfg.hostname).getLast? ≠ some 0x2E) :
    (∃ lb, decoded (frame d r l) dgram = .ok lb ∧
      (List.range ((labels.flatMap (fun label => label ++ [0x2E])).length + 1)).map lb.cell =
        labels.flatMap (fun label => label ++ [0x2E]) ++ [0x00] ∧
      (labels.flatMap (fun label => label ++ [0x2E])).getLast? = some 0x2E ∧
      ∀ x ∈ labels.flatMap (fun label => label ++ [0x2E]), x ≠ 0x00) ∧
    ∃ sent, receive_cycle cfg ip (frame d r l) dgram = .ok (some sent) ∧
      sent.length = dgram.length ∧ sent[3]? = some 0x05 ∧
      sent[6]? = some 0x00 ∧ sent[7]? = some 0x00 := by
  have hlast := dotted_getLast? labels hsome
  have hnz' := dotted_ne_zero labels hnz
  have hdn := decoded_name_wire dgram header rest labels hshape hheader hne
  rw [List.take_of_length_le h62] at hdn
  constructor
  · obtain ⟨lb, hlb, _, hcell, hnul⟩ := decode_name_eq d l dgram 128 (by omega) h79 (by omega)
    rw [hdn] at hcell hnul
    refine ⟨lb, by rw [decoded_eq d r l dgram h79, hlb], ?_, hlast, hnz'⟩
    apply map_range_eq
    · rw [List.length_append]
      rfl
    · intro j hj
      by_cases hlt : j < (labels.flatMap (fun label => label ++ [0x2E])).length
      · rw [hcell j hlt, List.getD_append _ _ _ _ hlt]
      · have e : j = (labels.flatMap (fun label => label ++ [0x2E])).length := by omega
        rw [List.getD_append_right _ _ _ _ (by omega), e, hnul]
        simp
  · have hm : name_differs cfg (frame d r l) dgram = true := by
      rw [name_differs_eq cfg d r l dgram (by omega) h79, hdn]
      simp only [bne_iff_ne, ne_eq]
      intro hs
      have := strcmp_eq_zero (fun j => (labels.flatMap (fun label => label ++ [0x2E])).getD j 0)
        cfg.hostname (labels.flatMap (fun label => label ++ [0x2E])) 0
        (fun j _ => by rw [Nat.zero_add])
        (by
          show (labels.flatMap (fun label => label ++ [0x2E])).getD
            (0 + (labels.flatMap (fun label => label ++ [0x2E])).length) 0 = 0
          rw [Nat.zero_add]
          exact List.getD_eq_default _ _ (Nat.le_refl _))
        hnz' hs
      rw [this] at hhost
      exact hhost hlast
    obtain ⟨hlen, _, _, _, q3, _, _, q6, q7, _⟩ := refusal_header dgram 5 h12
    exact ⟨_, cycle_refused cfg ip d r l dgram h12 h79 hm, hlen, q3, q6, q7⟩

/-- C16 (witness): the `portal.local` query with hostname `portal.local`. -/
theorem trailing_separator_is_refused_witness :
    (∃ lb, decoded stale_frame portal_query = .ok lb ∧
      (List.range 14).map lb.cell =
        [0x70, 0x6F, 0x72, 0x74, 0x61, 0x6C, 0x2E, 0x6C, 0x6F, 0x63, 0x61, 0x6C, 0x2E, 0x00] ∧
      [0x70, 0x6F, 0x72, 0x74, 0x61, 0x6C, 0x2E, 0x6C, 0x6F, 0x63, 0x61, 0x6C, 0x2E].getLast? =
        some 0x2E ∧
      ∀ x ∈ [0x70, 0x6F, 0x72, 0x74, 0x61, 0x6C, 0x2E, 0x6C, 0x6F, 0x63, 0x61, 0x6C, 0x2E],
        x ≠ 0x00) ∧
    ∃ sent, receive_cycle ⟨portal_local, false⟩ ip_10_0_0_1 stale_frame portal_query =
        .ok (some sent) ∧
      sent.length = portal_query.length ∧ sent[3]? = some 0x05 ∧
      sent[6]? = some 0x00 ∧ sent[7]? = some 0x00 :=
  trailing_separator_is_refused ⟨portal_local, false⟩ ip_10_0_0_1
    (fun _ => 0xAA) (fun _ => 0xBB) (fun _ => 0xCC) portal_query
    [0x12, 0x34, 0x01, 0x00, 0x00, 0x01, 0x00, 0x00, 0x00, 0x00, 0x00, 0x00]
    [0x00, 0x01, 0x00, 0x01]
    [[0x70, 0x6F, 0x72, 0x74, 0x61, 0x6C], [0x6C, 0x6F, 0x63, 0x61, 0x6C]]
    (by decide) (by decide) (by decide) (by decide) (by decide) (by decide) (by decide)
    (by decide) (by decide)

/-- The loop never exhausts its fuel when started with at least one unit for every two
bytes left, plus one; on completion the label counter is at most `(L - 11) / 2` and the
loop has stopped for one of its three reasons. No assumption is made on the capacities. -/
theorem walk_within_fuel (data : Buf) (L : Nat) :
    ∀ (fuel : Nat) (w : Walk), 12 + 2 * w.label_count ≤ w.i → w.i ≤ L + 1 →
      L + 2 ≤ 2 * fuel + w.i →
      walk data L fuel w ≠ .error .out_of_fuel ∧
        ∀ w', walk data L fuel w = .ok w' →
          2 * w'.label_count + 11 ≤ L ∧
          (L ≤ w'.i ∨ data.cell w'.i = 0x00 ∨ L < data.cell w'.i + w'.i) := by
  intro fuel
  induction fuel with
  | zero => intro w _ h3 h4; omega
  | succ n ih =>
    intro w hlc hi hf
    unfold walk
    by_cases hlt : w.i < L
    · simp only [hlt, if_true, bind, Except.bind, pure, Except.pure, load]
      by_cases hcap : w.i < data.cap
      · simp only [hcap, if_true]
        by_cases hz : data.cell w.i = 0
        · simp only [hz, if_true]
          refine ⟨by simp, ?_⟩
          intro w' hw
          simp only [Except.ok.injEq] at hw
          subst hw
          exact ⟨by omega, Or.inr (Or.inl hz)⟩
        · simp only [hz, if_false]
          by_cases hm : L < data.cell w.i + w.i
          · simp only [hm, if_true]
            refine ⟨by simp, ?_⟩
            intro w' hw
            simp only [Except.ok.injEq] at hw
            subst hw
            exact ⟨by show 2 * (w.label_count + 1) + 11 ≤ L; omega, Or.inr (Or.inr hm)⟩
          · simp only [hm, if_false, memcpy]
            by_cases hmc : w.buf_pos + data.cell w.i ≤ w.label_buf.cap ∧
                w.i + 1 + data.cell w.i ≤ data.cap
            · simp only [hmc, and_self, if_true, store]
              by_cases hst : w.buf_pos + data.cell w.i < w.label_buf.cap
              · simp only [hst, if_true]
                exact ih _
                  (by show 12 + 2 * (w.label_count + 1) ≤ w.i + (data.cell w.i + 1); omega)
                  (by show w.i + (data.cell w.i + 1) ≤ L + 1; omega)
                  (by show L + 2 ≤ 2 * n + (w.i + (data.cell w.i + 1)); omega)
              · simp only [hst, if_false]
                exact ⟨by simp, fun w' hw => by simp at hw⟩
            · simp only [hmc, if_false]
              exact ⟨by simp, fun w' hw => by simp at hw⟩
      · simp only [hcap, if_false]
        exact ⟨by simp, fun w' hw => by simp at hw⟩
    · simp only [hlt, if_false, pure, Except.pure]
      refine ⟨by simp, ?_⟩
      intro w' hw
      simp only [Except.ok.injEq] at hw
      subst hw
      exact ⟨by omega, Or.inl (by omega)⟩

/-- A result other than fuel exhaustion is not changed by one more unit of fuel. -/
theorem walk_fuel_succ (data : Buf) (L : Nat) :
    ∀ (fuel : Nat) (w : Walk), walk data L fuel w ≠ .error .out_of_fuel →
      walk data L (fuel + 1) w = walk data L fuel w := by
  intro fuel
  induction fuel with
  | zero => intro w h; exact absurd rfl h
  | succ n ih =>
    intro w h
    rw [walk] at h
    rw [walk]
    conv => rhs; rw [walk]
    by_cases hlt : w.i < L
    · simp only [hlt, if_true, bind, Except.bind, pure, Except.pure, load] at h ⊢
      by_cases hcap : w.i < data.cap
      · simp only [hcap, if_true] at h ⊢
        by_cases hz : data.cell w.i = 0
        · simp only [hz, if_true]
        · simp only [hz, if_false] at h ⊢
          by_cases hm : L < data.cell w.i + w.i
          · simp only [hm, if_true]
          · simp only [hm, if_false, memcpy] at h ⊢
            by_cases hmc : w.buf_pos + data.cell w.i ≤ w.label_buf.cap ∧
                w.i + 1 + data.cell w.i ≤ data.cap
            · simp only [hmc, and_self, if_true, store] at h ⊢
              by_cases hst : w.buf_pos + data.cell w.i < w.label_buf.cap
              · simp only [hst, if_true] at h ⊢
                exact ih _ h
              · simp only [hst, if_false]
            · simp only [hmc, if_false]
      · simp only [hcap, if_false]
    · simp only [hlt, if_false]

theorem walk_fuel_mono (data : Buf) (L : Nat) (fuel : Nat) (w : Walk)
    (h : walk data L fuel w ≠ .error .out_of_fuel) :
    ∀ k, walk data L (fuel + k) w = walk data L fuel w := by
  intro k
  induction k with
  | zero => rfl
  | succ k ih =>
    rw [← Nat.add_assoc, walk_fuel_succ data L (fuel + k) w (by rw [ih]; exact h), ih]

/-- C19. The name walk terminates for every length L of at least 12, whatever the arrays
hold: started at `i = 12` with one unit of fuel per evaluation of the loop condition,
`(L - 12 + 1) / 2 + 1` units are never exhausted and any larger amount gives the same
result (`decode_name` gives `L + 1`). When the loop completes, the label counter is at
most `(L - 12 + 1) / 2` and the loop has ended because `i >= L`, because the length byte
is zero, or because the label is malformed. With arrays as large as the declared ones
(`L < data.cap`, `L - 11 <= label_buf.cap`) the loop does complete. -/
theorem name_walk_terminates (data label_buf : Buf) (L fuel : Nat) (h12 : 12 ≤ L)
    (hfuel : (L - 12 + 1) / 2 + 1 ≤ fuel) :
    walk data L fuel { i := 12, buf_pos := 0, label_count := 0, label_buf := label_buf } ≠
        .error .out_of_fuel ∧
      walk data L fuel { i := 12, buf_pos := 0, label_count := 0, label_buf := label_buf } =
        walk data L ((L - 12 + 1) / 2 + 1)
          { i := 12, buf_pos := 0, label_count := 0, label_buf := label_buf } ∧
      (∀ w', walk data L fuel
            { i := 12, buf_pos := 0, label_count := 0, label_buf := label_buf } = .ok w' →
          w'.label_count ≤ (L - 12 + 1) / 2 ∧
          (L ≤ w'.i ∨ data.cell w'.i = 0x00 ∨ L < data.cell w'.i + w'.i)) ∧
      (L < data.cap → L ≤ label_buf.cap + 11 →
        ∃ w', walk data L fuel
          { i := 12, buf_pos := 0, label_count := 0, label_buf := label_buf } = .ok w') := by
  have hmin := walk_within_fuel data L ((L - 12 + 1) / 2 + 1)
    { i := 12, buf_pos := 0, label_count := 0, label_buf := label_buf }
    (by show 12 + 2 * 0 ≤ 12; omega) (by show 12 ≤ L + 1; omega)
    (by show L + 2 ≤ 2 * ((L - 12 + 1) / 2 + 1) + 12; omega)
  obtain ⟨k, rfl⟩ : ∃ k, fuel = (L - 12 + 1) / 2 + 1 + k := ⟨fuel - ((L - 12 + 1) / 2 + 1), by omega⟩
  have hmono := walk_fuel_mono data L ((L - 12 + 1) / 2 + 1)
    { i := 12, buf_pos := 0, label_count := 0, label_buf := label_buf } hmin.1 k
  rw [hmono]
  refine ⟨hmin.1, rfl, ?_, ?_⟩
  · intro w' hw
    obtain ⟨hc, hx⟩ := hmin.2 w' hw
    exact ⟨by omega, hx⟩
  · intro hd hl
    obtain ⟨w', hw, _⟩ := walk_eq data L hd ((L - 12 + 1) / 2 + 1)
      { i := 12, buf_pos := 0, label_count := 0, label_buf := label_buf } rfl
      (by show 12 ≤ L + 1; omega)
      (by show L + 2 ≤ 2 * ((L - 12 + 1) / 2 + 1) + 12; omega) hl
    exact ⟨w', hw⟩

/-- C19 (witness): the `portal.local` query, 30 bytes, with ten units of fuel. -/
theorem name_walk_terminates_witness :
    walk ⟨80, fun j => portal_query.getD j 0⟩ 30 10
        { i := 12, buf_pos := 0, label_count := 0, label_buf := ⟨128, fun _ => 0xCC⟩ } ≠
        .error .out_of_fuel ∧
      walk ⟨80, fun j => portal_query.getD j 0⟩ 30 10
          { i := 12, buf_pos := 0, label_count := 0, label_buf := ⟨128, fun _ => 0xCC⟩ } =
        walk ⟨80, fun j => portal_query.getD j 0⟩ 30 ((30 - 12 + 1) / 2 + 1)
          { i := 12, buf_pos := 0, label_count := 0, label_buf := ⟨128, fun _ => 0xCC⟩ } ∧
      (∀ w', walk ⟨80, fun j => portal_query.getD j 0⟩ 30 10
            { i := 12, buf_pos := 0, label_count := 0, label_buf := ⟨128, fun _ => 0xCC⟩ } =
            .ok w' →
          w'.label_count ≤ (30 - 12 + 1) / 2 ∧
          (30 ≤ w'.i ∨ (fun j => portal_query.getD j 0) w'.i = 0x00 ∨
            30 < (fun j => portal_query.getD j 0) w'.i + w'.i)) ∧
      ((30 : Nat) < 80 → (30 : Nat) ≤ 128 + 11 →
        ∃ w', walk ⟨80, fun j => portal_query.getD j 0⟩ 30 10
          { i := 12, buf_pos := 0, label_count := 0, label_buf := ⟨128, fun _ => 0xCC⟩ } =
          .ok w') :=
  name_walk_terminates ⟨80, fun j => portal_query.getD j 0⟩ ⟨128, fun _ => 0xCC⟩ 30 10
    (by decide) (by decide)

theorem recvfrom_gen (d : Nat → Nat) (dgram : List Nat) :
    recvfrom ⟨80, d⟩ dgram =
      (⟨80, fun j => if j < min dgram.length 80 then dgram.getD j 0 else d j⟩,
        min dgram.length 80) := by
  simp [recvfrom]

/-- A datagram of 80 bytes or more faults at line 108, one of 1 to 11 bytes at the copy of
line 132. -/
theorem cycle_faults (cfg : dns_server_config_t) (ip : ip4_addr_t) (d r l : Nat → Nat)
    (dgram : List Nat) (h : (1 ≤ dgram.length ∧ dgram.length ≤ 11) ∨ 80 ≤ dgram.length) :
    receive_cycle cfg ip (frame d r l) dgram = .error .out_of_bounds := by
  unfold receive_cycle
  rw [frame, recvfrom_gen]
  rcases h with ⟨h1, h11⟩ | h80
  · have hmin : min dgram.length 80 = dgram.length := by omega
    have hs : size_t ((dgram.length : Int) - 12) = 4294967296 - (12 - dgram.length) := by
      unfold size_t
      omega
    have hbig : ¬ (12 + (4294967296 - (12 - dgram.length)) ≤ 100 ∧
        12 + (4294967296 - (12 - dgram.length)) ≤ 80) := by omega
    simp only [hmin, (by omega : dgram.length > 0), if_true, store, (by omega : dgram.length < 80),
      bigEndianInt, load, build_header, memcpy, hs, hbig, bind, Except.bind, pure, Except.pure,
      Nat.reduceLT, Nat.reduceAdd, if_false]
  · have hmin : min dgram.length 80 = 80 := by omega
    simp only [hmin, store, bind, Except.bind, Nat.lt_irrefl, if_false]
    rfl

/-! ## The pass with arbitrary capacities of `response` and `label_buf` -/

theorem header_echo_cap (d r : Nat → Nat) (dgram : List Nat) (cr : Nat)
    (h1 : 12 ≤ dgram.length) (h2 : dgram.length ≤ 79) (hcr : dgram.length ≤ cr) :
    (build_header ⟨80, rcvd d dgram⟩ ⟨cr, r⟩ >>= fun response =>
      memcpy response 12 ⟨80, rcvd d dgram⟩ 12 (size_t ((dgram.length : Int) - 12)))
      = .ok ⟨cr, echo_cells r dgram⟩ := by
  have hs := size_t_sub dgram.length h1 h2
  have e : 12 + (dgram.length - 12) = dgram.length := by omega
  have r0 := rcvd_lt d dgram 0 (by omega)
  have r1 := rcvd_lt d dgram 1 (by omega)
  have r2 := rcvd_lt d dgram 2 (by omega)
  have r4 := rcvd_lt d dgram 4 (by omega)
  have r5 := rcvd_lt d dgram 5 (by omega)
  have hk : ∀ k, k < 12 → k < cr := by omega
  simp only [build_header, store, load, memcpy, hs, e, bind, Except.bind, r0, r1, r2, r4, r5]
  simp only [Nat.reduceLT, if_true, hcr, (by omega : dgram.length ≤ 80), and_self,
    hk 0 (by omega), hk 1 (by omega), hk 2 (by omega), hk 3 (by omega), hk 4 (by omega),
    hk 5 (by omega), hk 6 (by omega), hk 7 (by omega), hk 8 (by omega), hk 9 (by omega),
    hk 10 (by omega), hk 11 (by omega)]
  simp only [Except.ok.injEq, Buf.mk.injEq, true_and]
  funext j
  by_cases hj : j < 12
  · have : ¬ (12 ≤ j ∧ j < dgram.length) := by omega
    have hjl : j < dgram.length := by omega
    simp only [this, if_false, echo_cells, hjl, if_true, question_echo]
    interval_cases j <;> simp
  · by_cases hjl : j < dgram.length
    · have : (12 ≤ j ∧ j < dgram.length) := by omega
      have e2 : 12 + (j - 12) = j := by omega
      simp only [this, and_self, if_true, echo_cells, hjl, e2, rcvd_lt d dgram j hjl,
        question_echo_getD_ge dgram j (by omega)]
    · have : ¬ (12 ≤ j ∧ j < dgram.length) := by omega
      simp only [this, if_false, echo_cells, hjl]
      have h' : ∀ k, k < 12 → ¬ j = k := by omega
      simp [h']

theorem cycle_split_cap (cfg : dns_server_config_t) (ip : ip4_addr_t) (d r l : Nat → Nat)
    (dgram : List Nat) (cr cl : Nat)
    (h1 : 12 ≤ dgram.length) (h2 : dgram.length ≤ 79) (hcr : dgram.length ≤ cr) :
    receive_cycle cfg ip ⟨⟨80, d⟩, ⟨cr, r⟩, ⟨cl, l⟩⟩ dgram =
      (decode_name ⟨80, rcvd d dgram⟩ dgram.length ⟨cl, l⟩ >>= fun label_buf =>
        if strcmp cfg.hostname label_buf.cell 0 ≠ 0 then
          some <$> send_error ⟨cr, echo_cells r dgram⟩ dgram.length 0b00000101
        else
          some <$> send_answer ip ⟨80, rcvd d dgram⟩ ⟨cr, echo_cells r dgram⟩ dgram.length) := by
  have hpos : dgram.length > 0 := by omega
  have hh := header_echo_cap d r dgram cr h1 h2 hcr
  simp only [bind, Except.bind] at hh
  unfold receive_cycle
  simp only [recvfrom_eq d dgram h2, hpos, if_true, store_length_eq d dgram h2, bind, Except.bind]
  simp only [bigEndianInt, load, bind, Except.bind, Nat.reduceLT, Nat.reduceAdd, if_true, pure, Except.pure]
  rcases hb : build_header ⟨80, rcvd d dgram⟩ ⟨cr, r⟩ with e | v
  · rw [hb] at hh
    simp at hh
  · rw [hb] at hh
    simp only at hh ⊢
    rw [hh]
    simp [STANDARD_QUERY]

theorem send_error_cap (r : Nat → Nat) (dgram : List Nat) (code cr : Nat)
    (h1 : 12 ≤ dgram.length) (hcr : dgram.length ≤ cr) :
    send_error ⟨cr, echo_cells r dgram⟩ dgram.length code = .ok (refusal dgram code) := by
  simp only [send_error, store, sendto, bind, Except.bind, (by omega : 3 < cr),
    (by omega : 6 < cr), (by omega : 7 < cr), if_true, hcr]
  congr 1
  apply map_range_eq
  · simp [refusal]; omega
  · intro j hj
    by_cases h12 : j < 12
    · simp only [echo_cells, hj, if_true, question_echo, refusal]
      interval_cases j <;> simp
    · have h' : ¬ j = 7 ∧ ¬ j = 6 ∧ ¬ j = 3 := by omega
      simp only [h'.1, h'.2.1, h'.2.2, if_false, echo_cells, hj, if_true,
        question_echo_getD_ge dgram j (by omega), refusal_getD_ge dgram code j (by omega)]

theorem append_answer_cap (ip : ip4_addr_t) (R : Nat → Nat) (idx cr : Nat) (h : idx + 16 ≤ cr) :
    append_answer ip ⟨cr, R⟩ idx = .ok ((List.range idx).map R ++ answer_record ip) := by
  have hk : ∀ k, k < 16 → idx + k < cr := by omega
  simp only [append_answer, store, memcpy, sendto, ip4_addr_t.mem, bind, Except.bind,
    (by omega : idx < cr), hk 1 (by omega), hk 2 (by omega), hk 3 (by omega), hk 4 (by omega),
    hk 5 (by omega), hk 6 (by omega), hk 7 (by omega), hk 8 (by omega), hk 9 (by omega),
    hk 10 (by omega), hk 11 (by omega), (by omega : idx + 12 + 4 ≤ cr), h, if_true,
    Nat.zero_add, Nat.le_refl, and_self]
  congr 1
  apply map_range_eq
  · simp [answer_record]
  · intro j hj
    by_cases hlt : j < idx
    · rw [List.getD_append _ _ _ _ (by simpa using hlt)]
      have hne : ∀ k, ¬ j = idx + k := by omega
      have hn0 : ¬ j = idx := by omega
      have hn12 : ¬ (idx + 12 ≤ j ∧ j < idx + 12 + 4) := by omega
      simp only [hne, hn0, hn12, if_false]
      rw [List.getD_eq_getElem _ _ (by simpa using hlt)]
      simp
    · rw [List.getD_append_right _ _ _ _ (by simpa using hlt)]
      obtain ⟨k, rfl⟩ : ∃ k, j = idx + k := ⟨j - idx, by omega⟩
      have hk16 : k < 16 := by omega
      simp only [List.length_map, List.length_range, Nat.add_sub_cancel_left]
      interval_cases k <;> simp [answer_record]

theorem recopy_cap (d r : Nat → Nat) (dgram : List Nat) (cr : Nat)
    (h1 : 12 ≤ dgram.length) (h2 : dgram.length ≤ 79) (hcr : dgram.length ≤ cr) :
    memcpy ⟨cr, echo_cells r dgram⟩ 12 ⟨80, rcvd d dgram⟩ 12 (size_t ((dgram.length : Int) - 12))
      = .ok ⟨cr, echo_cells r dgram⟩ := by
  have e : 12 + (dgram.length - 12) = dgram.length := by omega
  simp only [memcpy, size_t_sub dgram.length h1 h2, e, hcr,
    (by omega : dgram.length ≤ 80), and_self, if_true, Except.ok.injEq, Buf.mk.injEq, true_and]
  funext j
  by_cases hj : 12 ≤ j ∧ j < dgram.length
  · have e2 : 12 + (j - 12) = j := by omega
    simp only [hj, and_self, if_true, e2, rcvd_lt d dgram j hj.2, echo_cells,
      question_echo_getD_ge dgram j hj.1]
  · simp only [hj, if_false]

theorem load_at_cap (R : Nat → Nat) (L k cr : Nat) (hk : k ≤ L) (hL : L < cr) :
    load_at ⟨cr, R⟩ ((L : Int) - (k : Int)) = .ok (R (L - k)) := by
  have h : (0 : Int) ≤ (L : Int) - (k : Int) ∧ (L : Int) - (k : Int) < (cr : Int) := by
    omega
  have e : ((L : Int) - (k : Int)).toNat = L - k := by omega
  simp only [load_at, h, and_self, if_true, e]

theorem send_answer_cap (ip : ip4_addr_t) (d r : Nat → Nat) (dgram : List Nat) (cr : Nat)
    (h1 : 12 ≤ dgram.length) (h2 : dgram.length ≤ 79) (hcr : dgram.length + 16 ≤ cr) :
    send_answer ip ⟨80, rcvd d dgram⟩ ⟨cr, echo_cells r dgram⟩ dgram.length
      = .ok ((question_echo dgram).take (answer_idx dgram) ++ answer_record ip) := by
  have l11 := load_at_cap (echo_cells r dgram) dgram.length 11 cr (by omega) (by omega)
  have l10 := load_at_cap (echo_cells r dgram) dgram.length 10 cr (by omega) (by omega)
  have l9 := load_at_cap (echo_cells r dgram) dgram.length 9 cr (by omega) (by omega)
  have c11 : echo_cells r dgram (dgram.length - 11) = (question_echo dgram).getD (dgram.length - 11) 0 := by
    simp only [echo_cells, (by omega : dgram.length - 11 < dgram.length), if_true]
  have c10 : echo_cells r dgram (dgram.length - 10) = (question_echo dgram).getD (dgram.length - 10) 0 := by
    simp only [echo_cells, (by omega : dgram.length - 10 < dgram.length), if_true]
  have c9 : echo_cells r dgram (dgram.length - 9) = (question_echo dgram).getD (dgram.length - 9) 0 := by
    simp only [echo_cells, (by omega : dgram.length - 9 < dgram.length), if_true]
  have hidx := answer_idx_le dgram
  rw [← take_echo_eq r dgram (answer_idx dgram) h1 hidx,
    ← append_answer_cap ip (echo_cells r dgram) (answer_idx dgram) cr (by omega)]
  simp only [send_answer, recopy_cap d r dgram cr h1 h2 (by omega), bind, Except.bind]
  simp only [Nat.cast_ofNat] at l11 l10 l9
  simp only [l11, l10, l9, c11, c10, c9]
  rfl

/-- The pass completes, with the same bytes sent, in every frame whose `response` has at
least `L + 16` cells and whose `label_buf` has at least `L - 10`. -/
theorem cycle_cap (cfg : dns_server_config_t) (ip : ip4_addr_t) (d r l : Nat → Nat)
    (dgram : List Nat) (cr cl : Nat)
    (h1 : 12 ≤ dgram.length) (h2 : dgram.length ≤ 79)
    (hcr : dgram.length + 16 ≤ cr) (hcl : dgram.length ≤ cl + 10) :
    receive_cycle cfg ip ⟨⟨80, d⟩, ⟨cr, r⟩, ⟨cl, l⟩⟩ dgram =
      .ok (some (if strcmp cfg.hostname (fun j => (decoded_name dgram).getD j 0) 0 = 0 then
        (question_echo dgram).take (answer_idx dgram) ++ answer_record ip
      else refusal dgram 5)) := by
  obtain ⟨lb, hlb, _, hs⟩ := strcmp_decoded cfg.hostname d l dgram cl (by omega) h2 hcl
  rw [cycle_split_cap cfg ip d r l dgram cr cl h1 h2 (by omega), hlb]
  simp only [bind, Except.bind, hs, send_error_cap r dgram 5 cr h1 (by omega),
    send_answer_cap ip d r dgram cr h1 h2 hcr]
  by_cases h : strcmp cfg.hostname (fun j => (decoded_name dgram).getD j 0) 0 = 0
  · simp only [h, ne_eq, not_true_eq_false, if_false, if_true]
    rfl
  · simp only [h, ne_eq, not_false_eq_true, if_true, if_false]
    rfl

/-- At the start of every iteration `buf_pos + 12 = i`, whatever the arrays hold. -/
theorem walk_states_inv (data : Buf) (L : Nat) :
    ∀ (fuel : Nat) (w : Walk), w.buf_pos + 12 = w.i →
      ∀ s ∈ walk_states data L fuel w, s.buf_pos + 12 = s.i := by
  intro fuel
  induction fuel with
  | zero => intro w _ s hs; simp [walk_states] at hs
  | succ n ih =>
    intro w hw s hs
    unfold walk_states at hs
    rw [List.mem_cons] at hs
    rcases hs with rfl | hs
    · exact hw
    · by_cases hlt : w.i < L
      · simp only [hlt, if_true] at hs
        rcases hld : load data w.i with e | c
        · rw [hld] at hs
          simp at hs
        · rw [hld] at hs
          simp only at hs
          by_cases hz : c = 0
          · simp [hz] at hs
          · simp only [hz, if_false] at hs
            by_cases hm : L < c + w.i
            · simp [hm] at hs
            · simp only [hm, if_false] at hs
              rcases hmc : memcpy w.label_buf w.buf_pos data (w.i + 1) c with e | lb
              · rw [hmc] at hs
                simp at hs
              · rw [hmc] at hs
                simp only at hs
                rcases hst : store lb (w.buf_pos + c) 0x2E with e | lb2
                · rw [hst] at hs
                  simp at hs
                · rw [hst] at hs
                  simp only at hs
                  exact ih _ (by show w.buf_pos + c + 1 + 12 = w.i + (c + 1); omega) s hs
      · simp [hlt] at hs

/-- The state returned by `walk` is the last state of `walk_states`, but for the label
counter, which a malformed label increments once more. -/
theorem walk_states_last (data : Buf) (L : Nat) :
    ∀ (fuel : Nat) (w w' : Walk), walk data L fuel w = .ok w' →
      ∃ s, (walk_states data L fuel w).getLast? = some s ∧
        w'.i = s.i ∧ w'.buf_pos = s.buf_pos ∧ w'.label_buf = s.label_buf := by
  intro fuel
  induction fuel with
  | zero => intro w w' h; simp [walk] at h
  | succ n ih =>
    intro w w' h
    unfold walk at h
    unfold walk_states
    by_cases hlt : w.i < L
    · simp only [hlt, if_true, bind, Except.bind, pure, Except.pure] at h ⊢
      rcases hld : load data w.i with e | c
      · rw [hld] at h
        simp at h
      · rw [hld] at h
        simp only at h ⊢
        by_cases hz : c = 0
        · simp only [hz, if_true, Except.ok.injEq] at h ⊢
          subst h
          exact ⟨w, rfl, rfl, rfl, rfl⟩
        · simp only [hz, if_false] at h ⊢
          by_cases hm : L < c + w.i
          · simp only [hm, if_true, Except.ok.injEq] at h ⊢
            subst h
            exact ⟨w, rfl, rfl, rfl, rfl⟩
          · simp only [hm, if_false] at h ⊢
            rcases hmc : memcpy w.label_buf w.buf_pos data (w.i + 1) c with e | lb
            · rw [hmc] at h
              simp at h
            · rw [hmc] at h
              simp only at h ⊢
              rcases hst : store lb (w.buf_pos + c) 0x2E with e | lb2
              · rw [hst] at h
                simp at h
              · rw [hst] at h
                simp only at h ⊢
                obtain ⟨s, hs, h1, h2, h3⟩ := ih _ w' h
                refine ⟨s, ?_, h1, h2, h3⟩
                rw [List.getLast?_cons, hs]
                rfl
    · simp only [hlt, if_false, pure, Except.pure, Except.ok.injEq] at h ⊢
      subst h
      exact ⟨w, rfl, rfl, rfl, rfl⟩

/-- C18. For a request of 12 to 79 bytes: at the start of every iteration of the name walk
`buf_pos = i - 12`; the pass completes, and sends the same bytes, even when `label_buf`
has only `L - 10` cells and `response` only `L + 16`, so no access to `label_buf` is above
index `L - 11` (at most 68, below 128) and none to `response` above index `L + 15` (at
most 94, below 100); the length given to `sendto` is at most `L + 16`, at most 95. -/
theorem scratch_buffers_in_bounds (cfg : dns_server_config_t) (ip : ip4_addr_t)
    (d r l : Nat → Nat) (dgram : List Nat)
    (h12 : 12 ≤ dgram.length) (h79 : dgram.length ≤ 79) :
    (∀ (data label_buf : Buf) (fuel : Nat),
        ∀ s ∈ walk_states data dgram.length fuel
            { i := 12, buf_pos := 0, label_count := 0, label_buf := label_buf },
          s.buf_pos = s.i - 12 ∧ 12 ≤ s.i) ∧
      (∃ sent,
        receive_cycle cfg ip
            ⟨⟨80, d⟩, ⟨dgram.length + 16, r⟩, ⟨dgram.length - 10, l⟩⟩ dgram = .ok (some sent) ∧
          receive_cycle cfg ip (frame d r l) dgram = .ok (some sent) ∧
          sent.length ≤ dgram.length + 16) ∧
      dgram.length - 11 ≤ 68 ∧ dgram.length + 15 ≤ 94 ∧ dgram.length + 16 ≤ 95 := by
  refine ⟨?_, ?_, by omega, by omega, by omega⟩
  · intro data label_buf fuel s hs
    have := walk_states_inv data dgram.length fuel
      { i := 12, buf_pos := 0, label_count := 0, label_buf := label_buf } rfl s hs
    omega
  · refine ⟨_, cycle_cap cfg ip d r l dgram (dgram.length + 16) (dgram.length - 10) h12 h79
      (Nat.le_refl _) (by omega), cycle_cap cfg ip d r l dgram 100 128 h12 h79 (by omega)
      (by omega), ?_⟩
    have hidx := answer_idx_le dgram
    obtain ⟨hlen, _⟩ := answer_tail dgram ip h12
    obtain ⟨hrl, _⟩ := refusal_header dgram 5 h12
    split_ifs
    · omega
    · omega

/-- C18 (witness): the 79-byte request whose decoded name has 66 bytes. -/
theorem scratch_buffers_in_bounds_witness :
    (∀ (data label_buf : Buf) (fuel : Nat),
        ∀ s ∈ walk_states data longest_query.length fuel
            { i := 12, buf_pos := 0, label_count := 0, label_buf := label_buf },
          s.buf_pos = s.i - 12 ∧ 12 ≤ s.i) ∧
      (∃ sent,
        receive_cycle ⟨portal_local_dot, false⟩ ip_10_0_0_1
            ⟨⟨80, fun _ => 0xAA⟩,
              ⟨longest_query.length + 16, fun _ => 0xBB⟩,
              ⟨longest_query.length - 10, fun _ => 0xCC⟩⟩
            longest_query = .ok (some sent) ∧
          receive_cycle ⟨portal_local_dot, false⟩ ip_10_0_0_1 stale_frame
            longest_query = .ok (some sent) ∧
          sent.length ≤ longest_query.length + 16) ∧
      longest_query.length - 11 ≤ 68 ∧
      longest_query.length + 15 ≤ 94 ∧
      longest_query.length + 16 ≤ 95 :=
  scratch_buffers_in_bounds ⟨portal_local_dot, false⟩ ip_10_0_0_1
    (fun _ => 0xAA) (fun _ => 0xBB) (fun _ => 0xCC)
    longest_query (by decide) (by decide)

end DnsServer
